import Mathlib

/-!
# rcc-count-key-slot: slot/key statistics of a Redis cluster

A shallow embedding of `src/rcc-count-key-slot/main.go` and the properties of
its parts:

* `statsMemoryInShard` (lines 77-99): the `used_memory` field of `INFO memory`;
* `statsKeyInShard` (lines 101-167): the slot walk, the optional per-slot
  ranking and the fold over `INFO keyspace`;
* `rankBySlotCount` with `PairList` (lines 196-210): the ranking order;
* the report loop of `main` (lines 170-193).

Go strings are sequences of bytes; every separator the program uses is ASCII, so
a string is modelled as a list of characters.  Go `int` is the 64-bit machine
integer: arithmetic results are reduced by `wrapInt`.  The network (the redis
client) and the library routine `sort.Sort` are parameters of the model.
-/

namespace Rcc

/-! ## Go primitives -/

/-- A Go string. -/
abbrev GoString := List Char

/-- Smallest value of the 64-bit Go `int`. -/
def intMin : Int := -(2 ^ 63)

/-- Largest value of the 64-bit Go `int`. -/
def intMax : Int := 2 ^ 63 - 1

/-- Reduction of a mathematical integer to the 64-bit two's complement `int`:
what Go's `+`, `-`, and integer conversions compute. -/
def wrapInt (x : Int) : Int := (x + 2 ^ 63) % 2 ^ 64 - 2 ^ 63

/-- Ways in which the process stops without returning. -/
inductive Abort where
  /-- The call `os.Exit(code)`. -/
  | exit (code : Int)
  /-- Run-time panic: index out of range. -/
  | indexOutOfRange
  /-- Run-time panic: integer divide by zero. -/
  | divideByZero
  deriving DecidableEq, Repr

deriving instance DecidableEq for Except

/-- The indexing expression `xs[i]` of Go: a panic when `i` is not below `len(xs)`. -/
def index {α : Type} (xs : List α) (i : Nat) : Except Abort α :=
  match xs[i]? with
  | some x => .ok x
  | none => .error .indexOutOfRange

/-- Integer division `a / b` of Go: panics on a zero divisor, truncates toward
zero otherwise. -/
def goDiv (a b : Int) : Except Abort Int :=
  if b = 0 then .error .divideByZero else .ok (wrapInt (Int.tdiv a b))

namespace Strings

/-- Go `strings.HasPrefix(s, p)`. -/
def HasPrefix (s p : GoString) : Bool := p.isPrefixOf s

/-- First occurrence of the non-empty separator `sep` in `s` (Go `strings.Index`),
returned as the text before it and the text after it. -/
def cut (sep : GoString) : GoString → Option (GoString × GoString)
  | [] => none
  | c :: t =>
    if sep.isPrefixOf (c :: t) then some ([], (c :: t).drop sep.length)
    else
      match cut sep t with
      | some (b, a) => some (c :: b, a)
      | none => none

/-- Go `strings.SplitN(s, sep, n)` for a non-empty `sep` and `n ≥ 0`: at most `n`
substrings, the last one being the unsplit remainder; `n = 0` gives no substring. -/
def SplitN (sep : GoString) : Nat → GoString → List GoString
  | 0, _ => []
  | 1, s => [s]
  | n + 2, s =>
    match cut sep s with
    | none => [s]
    | some (b, a) => b :: SplitN sep (n + 1) a

/-- Go `strings.Split(s, sep)` for a non-empty `sep`: all substrings between
occurrences of `sep`.  The separator occurs at most `len(s)` times, so
`len(s) + 1` substrings are always enough. -/
def Split (s sep : GoString) : List GoString := SplitN sep (s.length + 1) s

end Strings

namespace Strconv

/-- Value of a decimal digit byte (`ch -= 48; if ch > 9 then error`). -/
def digitVal (c : Char) : Option Nat :=
  if 48 ≤ c.toNat ∧ c.toNat ≤ 57 then some (c.toNat - 48) else none

/-- The digit loop of `Atoi`: `n = n*10 + digit`, failing at the first
character that is not a digit. -/
def parseDigits : GoString → Nat → Option Nat
  | [], n => some n
  | c :: t, n =>
    match digitVal c with
    | none => none
    | some d => parseDigits t (n * 10 + d)

/-- The text without its sign (`if s[0] == 45 || s[0] == 43 then s = s[1:]`, the
bytes of `-` and `+`). -/
def unsigned (s : GoString) : GoString :=
  match s with
  | '-' :: t => t
  | '+' :: t => t
  | _ => s

/-- Go `strconv.Atoi`: an optional sign, then at least one decimal digit and
nothing else; the value must fit the 64-bit `int`.  The result `none` stands for
a non-nil error. -/
def Atoi (s : GoString) : Option Int :=
  if (unsigned s).isEmpty then none
  else
    match parseDigits (unsigned s) 0 with
    | none => none
    | some n =>
      let v : Int := if s.head? = some '-' then -(n : Int) else (n : Int)
      if intMin ≤ v ∧ v ≤ intMax then some v else none

end Strconv

/-! ## Data model -/

/-- Modelled from the spec: the struct of a slot range in `rcc.ClusterNode.Slots`,
declared in the package `rcc`, which is not among the sources: a range
`{start, end}` of integer slot indices.  The program reads the two fields through
the conversion `int(...)`, modelled by `wrapInt`. -/
structure ClusterSlot where
  Start : Int
  End : Int
  deriving DecidableEq, Repr

/-- Modelled from the spec: the struct `rcc.ClusterNode`, declared in the package
`rcc`, which is not among the sources: identifier, host, port, flags and the
ordered list of slot ranges, under the field names the program reads. -/
structure ClusterNode where
  ID : GoString
  Host : GoString
  IP : GoString
  Port : Int
  Flags : List GoString
  Slots : List ClusterSlot
  deriving DecidableEq, Repr

/-- The struct `Pair` (lines 201-204). -/
structure Pair where
  Key : Int
  Value : Int
  deriving DecidableEq, Repr

/-- The type `PairList` (line 206). -/
abbrev PairList := List Pair

/-- What a redis client bound to one address answers: the text of `Info(section).Val()`
and the number returned by `ClusterCountKeysInSlot(slot).Val()`. -/
structure Client where
  Info : GoString → GoString
  ClusterCountKeysInSlot : Int → Int

/-- The network: `redis.NewClient` for the address `IP:Port`. -/
abbrev Network := GoString → Int → Client

/-! ## The ranking order (lines 196-210) -/

namespace GoSort

/-- Go `sort.Interface`, as a method table over the data being sorted. -/
structure Interface where
  Len : PairList → Nat
  Less : PairList → Nat → Nat → Bool
  Swap : PairList → Nat → Nat → PairList

/-- Go `sort.Reverse`: the same data with `Less(i, j)` answered by `Less(j, i)`. -/
def Reverse (data : Interface) : Interface :=
  { data with Less := fun p i j => data.Less p j i }

/-- The documented contract of `sort.Sort`: the data is rearranged (through
`Swap`) into ascending order as determined by `Less`; nothing is promised about
elements that compare equal. -/
def Sorts (data : Interface) (sortSort : Interface → PairList → PairList) : Prop :=
  ∀ p : PairList, (sortSort data p).Perm p ∧
    ∀ i j : Nat, i < j → j < data.Len (sortSort data p) →
      data.Less (sortSort data p) j i = false

/-- The inner loop of the library routine `insertionSort(data, a, b)`:
`for j := i; j > a && data.Less(j, j-1); j-- { data.Swap(j, j-1) }`. -/
def insertionInner (data : Interface) (a : Nat) : Nat → PairList → PairList
  | 0, p => p
  | j + 1, p =>
    if a < j + 1 ∧ data.Less p (j + 1) j = true then
      insertionInner data a j (data.Swap p (j + 1) j)
    else p

/-- The library routine `insertionSort(data, a, b)`:
`for i := a + 1; i < b; i++ { inner loop }`. -/
def insertionSort (data : Interface) (p : PairList) (a b : Nat) : PairList :=
  (List.range' (a + 1) (b - (a + 1))).foldl (fun q i => insertionInner data a i q) p

/-- A `sort.Sort` that is insertion sort over the whole data: the routine the
library of Go 1.19 and later runs on data of at most 12 elements. -/
def sortInsertion (data : Interface) (p : PairList) : PairList :=
  insertionSort data p 0 (data.Len p)

/-- One pass with gap 6 over `[a, b)`:
`for i := a + 6; i < b; i++ { if data.Less(i, i-6) { data.Swap(i, i-6) } }`. -/
def gapPass (data : Interface) (p : PairList) (a b : Nat) : PairList :=
  (List.range' (a + 6) (b - (a + 6))).foldl
    (fun q i => if data.Less q i (i - 6) = true then data.Swap q i (i - 6) else q) p

/-- A `sort.Sort` that is one pass with gap 6 followed by insertion sort: the
routine the library of Go 1.6 to 1.18 runs on data of at most 12 elements. -/
def sortShell (data : Interface) (p : PairList) : PairList :=
  if 1 < data.Len p then insertionSort data (gapPass data p 0 (data.Len p)) 0 (data.Len p)
  else p

end GoSort

/-- The method `Len` of `PairList` (line 208). -/
def PairList.Len (p : PairList) : Nat := p.length

/-- The method `Less` of `PairList` (line 209): `p[i].Value < p[j].Value`.
The library only passes indices below `Len`. -/
def PairList.Less (p : PairList) (i j : Nat) : Bool :=
  match p[i]?, p[j]? with
  | some x, some y => decide (x.Value < y.Value)
  | _, _ => false

/-- The method `Swap` of `PairList` (line 210): `p[i], p[j] = p[j], p[i]`. -/
def PairList.Swap (p : PairList) (i j : Nat) : PairList :=
  match p[i]?, p[j]? with
  | some x, some y => (p.set i y).set j x
  | _, _ => p

/-- The value `PairList` seen as a `sort.Interface`. -/
def PairList.iface : GoSort.Interface :=
  { Len := PairList.Len, Less := PairList.Less, Swap := PairList.Swap }

/-- The function `rankBySlotCount` (lines 196-199): `sort.Sort(sort.Reverse(pl))`. -/
def rankBySlotCount (sortSort : GoSort.Interface → PairList → PairList) (pl : PairList) :
    PairList :=
  sortSort (GoSort.Reverse PairList.iface) pl

/-! ## `statsMemoryInShard` (lines 77-99) -/

/-- The Go map `map[string]string`, newest binding first. -/
abbrev StatMap := List (GoString × GoString)

/-- The assignment `stat[key] = value`. -/
def StatMap.set (stat : StatMap) (key value : GoString) : StatMap :=
  (key, value) :: stat.filter (fun e => e.1 != key)

/-- The lookup `stat[key]`: the empty string when the key is absent. -/
def StatMap.get (stat : StatMap) (key : GoString) : GoString :=
  match stat.find? (fun e => e.1 == key) with
  | some e => e.2
  | none => []

/-- The body of the loop at lines 85-97 for one line of the memory text. -/
def memoryStep (stat : StatMap) (line : GoString) : StatMap :=
  if Strings.HasPrefix line "#".toList then stat
  else
    match Strings.SplitN ":".toList 2 line with
    | [key, value] => stat.set key value
    | _ => stat

/-- The parsing part of `statsMemoryInShard` (lines 78, 85-98), applied to the
text `res` of `INFO memory`. -/
def memoryStat (res : GoString) : GoString :=
  ((Strings.Split res "\r\n".toList).foldl memoryStep []).get "used_memory".toList

/-- The closure `statsMemoryInShard` (lines 77-99). -/
def statsMemoryInShard (net : Network) (node : ClusterNode) : GoString :=
  memoryStat ((net node.IP node.Port).Info "memory".toList)

/-! ## `statsKeyInShard` (lines 101-167) -/

/-- The state of the per-slot loop: the cursor `pos`, the list `pl`, and the
record of the slots passed to `ClusterCountKeysInSlot`. -/
structure RankState where
  pos : Int
  pl : PairList
  queries : List Int
  deriving DecidableEq, Repr

/-- The body of the loop at lines 113-117: one query for the slot `pos` and one
pair appended.  The body does not assign `pos`. -/
def rankBody (client : Client) (st : RankState) : RankState :=
  { pos := st.pos,
    pl := st.pl ++ [{ Key := st.pos, Value := client.ClusterCountKeysInSlot st.pos }],
    queries := st.queries ++ [st.pos] }

/-- The loop at lines 112-118, `for pos < int(s.End) { body }`, with `fuel`
bounding the number of evaluations of its condition.  The result `none` means
that the loop is still running when the fuel is used up. -/
def rankLoop (client : Client) (sEnd : Int) : Nat → RankState → Option RankState
  | 0, _ => none
  | fuel + 1, st =>
    if st.pos < sEnd then rankLoop client sEnd fuel (rankBody client st)
    else some st

/-- The loop at lines 108-120 over the slot ranges: the state is `slotStat`, `pl`
and the recorded queries (`pos` is assigned at the top of every iteration). -/
def slotWalk (client : Client) (rank : Int) (fuel : Nat) :
    List ClusterSlot → Int → PairList → List Int → Option (Int × PairList × List Int)
  | [], slotStat, pl, queries => some (slotStat, pl, queries)
  | s :: rest, slotStat, pl, queries =>
    let pos := wrapInt s.Start
    let slotStat := wrapInt (slotStat + wrapInt (wrapInt s.End - wrapInt s.Start))
    if rank > 0 then
      match rankLoop client (wrapInt s.End) fuel { pos := pos, pl := pl, queries := queries } with
      | none => none
      | some st => slotWalk client rank fuel rest slotStat st.pl st.queries
    else slotWalk client rank fuel rest slotStat pl queries

/-- The body of the loop at lines 127-161 for one line of the keyspace text; the
state is `(keysStat, expiresStat)`. -/
def keyspaceStep (st : Int × Int) (line : GoString) : Except Abort (Int × Int) :=
  if Strings.HasPrefix line "#".toList then .ok st
  else
    match Strings.SplitN ":".toList 2 line with
    | [key, value] =>
      if Strings.HasPrefix key "db".toList then do
        let kv := Strings.SplitN ",".toList 3 value
        let keys ← index kv 0
        let expires ← index kv 1
        let keysStr := Strings.SplitN "=".toList 2 keys
        let keysText ← index keysStr 1
        match Strconv.Atoi keysText with
        | none => .error (.exit 1)
        | some keysv =>
          let keysStat := wrapInt (st.1 + keysv)
          let expiresStr := Strings.SplitN "=".toList 2 expires
          let expiresText ← index expiresStr 1
          match Strconv.Atoi expiresText with
          | none => .error (.exit 1)
          | some expiresv => .ok (keysStat, wrapInt (st.2 + expiresv))
      else .ok st
    | _ => .ok st

/-- The loop at lines 123-161, applied to the text `res` of `INFO keyspace`:
the totals `(keysStat, expiresStat)`, or the way the process stops. -/
def keyspaceFold (res : GoString) : Except Abort (Int × Int) :=
  (Strings.Split res "\r\n".toList).foldlM keyspaceStep (0, 0)

/-- What a call of `statsKeyInShard` did: the per-slot queries it issued and
either the returned triple `(slotStat, keysStat, pl)` or the way the process
stopped. -/
structure Run where
  queries : List Int
  result : Except Abort (Int × Int × PairList)
  deriving DecidableEq

/-- The closure `statsKeyInShard` (lines 101-167).  The result `none` means that
the per-slot loop is still running when the fuel is used up. -/
def statsKeyInShard (sortSort : GoSort.Interface → PairList → PairList) (net : Network)
    (node : ClusterNode) (rank : Int) (fuel : Nat) : Option Run :=
  let client := net node.IP node.Port
  match slotWalk client rank fuel node.Slots 0 [] [] with
  | none => none
  | some (slotStat, pl, queries) =>
    let pl := rankBySlotCount sortSort pl
    match keyspaceFold (client.Info "keyspace".toList) with
    | .error e => some { queries := queries, result := .error e }
    | .ok (keysStat, _) => some { queries := queries, result := .ok (slotStat, keysStat, pl) }

/-! ## The report loop of `main` (lines 170-193) -/

/-- The values printed for one master (lines 176-189). -/
structure ReportLine where
  ID : GoString
  Host : GoString
  Port : Int
  flag : GoString
  slots : Int
  count : Int
  avg : Int
  usedMemory : GoString
  deriving DecidableEq, Repr

/-- The loop at lines 178-184: the flags joined by commas. -/
def joinFlags (flags : List GoString) : GoString :=
  (flags.enum.foldl
    (fun (flag : GoString) (e : Nat × GoString) =>
      if flags.length - 1 ≠ e.1 then flag ++ e.2 ++ ",".toList else flag ++ e.2)
    [])

/-- The body at lines 174-189, run for a node that has the flag `master`:
`statsKeyInShard(node, 0)`, `statsMemoryInShard(node)`, and the printed values,
among them the quotient `keysStat/slotStat`. -/
def reportMaster (sortSort : GoSort.Interface → PairList → PairList) (net : Network)
    (node : ClusterNode) (fuel : Nat) : Option (Except Abort ReportLine) :=
  match statsKeyInShard sortSort net node 0 fuel with
  | none => none
  | some run =>
    match run.result with
    | .error e => some (.error e)
    | .ok (slotStat, keysStat, _) =>
      let usedMemory := statsMemoryInShard net node
      match goDiv keysStat slotStat with
      | .error e => some (.error e)
      | .ok avg =>
        some (.ok { ID := node.ID, Host := node.Host, Port := node.Port,
                    flag := joinFlags node.Flags, slots := slotStat, count := keysStat,
                    avg := avg, usedMemory := usedMemory })

/-- The inner loop at lines 171-192 for one node: one report per flag equal to
`master`. -/
def reportFlags (sortSort : GoSort.Interface → PairList → PairList) (net : Network)
    (node : ClusterNode) (fuel : Nat) :
    List GoString → List ReportLine → Option (Except Abort (List ReportLine))
  | [], out => some (.ok out)
  | flag :: rest, out =>
    if flag = "master".toList then
      match reportMaster sortSort net node fuel with
      | none => none
      | some (.error e) => some (.error e)
      | some (.ok line) => reportFlags sortSort net node fuel rest (out ++ [line])
    else reportFlags sortSort net node fuel rest out

/-- The loop at lines 170-193 over the nodes of the cluster: the lines printed,
or the way the process stops. -/
def reportLoop (sortSort : GoSort.Interface → PairList → PairList) (net : Network)
    (fuel : Nat) : List ClusterNode → List ReportLine → Option (Except Abort (List ReportLine))
  | [], out => some (.ok out)
  | node :: rest, out =>
    match reportFlags sortSort net node fuel node.Flags out with
    | none => none
    | some (.error e) => some (.error e)
    | some (.ok out) => reportLoop sortSort net fuel rest out

/-! ## Definitions used to state the properties -/

/-- The sum of `End - Start` over the slot ranges of a node. -/
def slotSum (slots : List ClusterSlot) : Int :=
  (slots.map (fun s => s.End - s.Start)).sum

/-- A master that owns the slot range `[100, 103)`. -/
def nodeRanked : ClusterNode :=
  { ID := "a1".toList, Host := "10.0.0.1".toList, IP := "10.0.0.1".toList, Port := 6379,
    Flags := ["master".toList], Slots := [{ Start := 100, End := 103 }] }

/-- A master that owns no slot. -/
def nodeEmpty : ClusterNode :=
  { ID := "b2".toList, Host := "10.0.0.2".toList, IP := "10.0.0.2".toList, Port := 6379,
    Flags := ["master".toList], Slots := [] }

/-- A client whose slots 100, 101, 102 hold 0, 7 and 3 keys, with one logical
database of 10 keys. -/
def sampleClient : Client :=
  { Info := fun name =>
      if name = "keyspace".toList then "# Keyspace\r\ndb0:keys=10,expires=2,avg_ttl=0\r\n".toList
      else "# Memory\r\nused_memory:12345\r\n".toList,
    ClusterCountKeysInSlot := fun slot => if slot = 101 then 7 else if slot = 102 then 3 else 0 }

/-- A network in which every address answers as `sampleClient`. -/
def sampleNet : Network := fun _ _ => sampleClient

/-- The order that `sort.Reverse(pl)` sorts by, read on the reversed list. -/
def Pair.le (a b : Pair) : Prop := a.Value ≤ b.Value

instance : DecidableRel Pair.le := fun a b => inferInstanceAs (Decidable (a.Value ≤ b.Value))
instance : IsTotal Pair Pair.le := ⟨fun a b => le_total a.Value b.Value⟩
instance : IsTrans Pair Pair.le := ⟨fun _ _ _ h1 h2 => le_trans h1 h2⟩

/-- The list of the ranking example. -/
def rankExample : PairList :=
  [{ Key := 1, Value := 5 }, { Key := 2, Value := 9 }, { Key := 3, Value := 9 },
   { Key := 4, Value := 1 }]

/-- Seven pairs: six slots with 5 keys each, then one slot with 9 keys. -/
def tiesExample : PairList :=
  [{ Key := 0, Value := 5 }, { Key := 1, Value := 5 }, { Key := 2, Value := 5 },
   { Key := 3, Value := 5 }, { Key := 4, Value := 5 }, { Key := 5, Value := 5 },
   { Key := 6, Value := 9 }]

/-- The text of `s` before the first occurrence of the character `c` (all of `s`
when `c` does not occur). -/
def beforeFirst (c : Char) (s : GoString) : GoString := s.takeWhile (fun x => x != c)

/-- The text of `s` after the first occurrence of the character `c` (empty when
`c` does not occur). -/
def afterFirst (c : Char) (s : GoString) : GoString := (s.dropWhile (fun x => x != c)).drop 1

/-- A line that does not begin with `#` and contains a `:`. -/
def isEntry (line : GoString) : Bool := line.head? != some '#' && line.contains ':'

/-- A line that does not begin with `#`, contains a `:` and whose text before
the first `:` is exactly `key`. -/
def isEntryFor (key : GoString) (line : GoString) : Bool :=
  isEntry line && beforeFirst ':' line == key

/-- The claim of C7 in its own words: the text after the first `:` of the last
CRLF-separated line that is an entry for `used_memory`, or the empty string. -/
def memorySpec (res : GoString) : GoString :=
  match ((Strings.Split res "\r\n".toList).filter (isEntryFor "used_memory".toList)).getLast? with
  | some line => afterFirst ':' line
  | none => []

/-- The mapping built by the loop of `statsMemoryInShard` (lines 85-97). -/
def memoryMap (res : GoString) : StatMap :=
  (Strings.Split res "\r\n".toList).foldl memoryStep []

/-- A line that does not begin with `#`, contains a `:` and whose key (the text
before the first `:`) begins with `db`. -/
def isDbEntry (line : GoString) : Bool :=
  isEntry line && "db".toList.isPrefixOf (beforeFirst ':' line)

/-- The first comma-separated field of the value of a line. -/
def firstField (line : GoString) : GoString := beforeFirst ',' (afterFirst ':' line)

/-- The second comma-separated field of the value of a line. -/
def secondField (line : GoString) : GoString :=
  beforeFirst ',' (afterFirst ',' (afterFirst ':' line))

/-- The text after `=` in the first field: the number of keys. -/
def keysText (line : GoString) : GoString := afterFirst '=' (firstField line)

/-- The text after `=` in the second field: the number of expiring keys. -/
def expiresText (line : GoString) : GoString := afterFirst '=' (secondField line)

/-- The precondition of C10 for one line: the value contains a `,` and each of
its first two comma-separated fields contains a `=`. -/
def fieldsIndexable (line : GoString) : Bool :=
  (afterFirst ':' line).contains ',' && (firstField line).contains '=' &&
    (secondField line).contains '='

/-- The precondition of C10 for a keyspace text: every `db` entry line has
indexable fields. -/
def indexSafe (res : GoString) : Bool :=
  (Strings.Split res "\r\n".toList).all (fun line => !isDbEntry line || fieldsIndexable line)

/-- A decimal integer: an optional sign followed by one or more decimal digits. -/
def isDecimalInteger (s : GoString) : Bool :=
  let body : GoString :=
    match s with
    | '-' :: t => t
    | '+' :: t => t
    | _ => s
  !body.isEmpty && body.all Char.isDigit

/-- A line whose `keys=` or `expires=` field is not a decimal integer. -/
def hasBadInteger (line : GoString) : Bool :=
  !isDecimalInteger (keysText line) || !isDecimalInteger (expiresText line)

/-- What one step of the keyspace loop does, case by case. -/
def keyspaceStepCases (st : Int × Int) (line : GoString) : Except Abort (Int × Int) :=
  if isDbEntry line then
    if ',' ∈ afterFirst ':' line then
      if '=' ∈ firstField line then
        match Strconv.Atoi (keysText line) with
        | none => .error (.exit 1)
        | some keysv =>
          if '=' ∈ secondField line then
            match Strconv.Atoi (expiresText line) with
            | none => .error (.exit 1)
            | some expiresv => .ok (wrapInt (st.1 + keysv), wrapInt (st.2 + expiresv))
          else .error .indexOutOfRange
      else .error .indexOutOfRange
    else .error .indexOutOfRange
  else .ok st

/-- The decimal text of an integer, as redis prints a count. -/
def showInt (n : Int) : GoString :=
  if n < 0 then '-' :: Nat.toDigits 10 n.natAbs else Nat.toDigits 10 n.natAbs

/-- A text in which no CRLF occurs. -/
def noCRLF : GoString → Bool
  | [] => true
  | c :: t => !("\r\n".toList.isPrefixOf (c :: t)) && noCRLF t

/-- The lines of a well-formed keyspace text. -/
inductive KsLine where
  /-- A comment: `#` followed by `body`. -/
  | comment (body : GoString)
  /-- A line without `:`. -/
  | plain (text : GoString)
  /-- A line `key:value` whose key does not begin with `db`. -/
  | other (key value : GoString)
  /-- A line `db<suffix>:keys=<keys>,expires=<expires>,<rest>`. -/
  | db (suffix : GoString) (keys expires : Int) (rest : GoString)
  deriving DecidableEq, Repr

/-- The text of a line. -/
def KsLine.render : KsLine → GoString
  | .comment body => '#' :: body
  | .plain text => text
  | .other key value => key ++ ':' :: value
  | .db suffix keys expires rest =>
    "db".toList ++ suffix ++ ":keys=".toList ++ showInt keys ++ ",expires=".toList ++
      showInt expires ++ ',' :: rest

/-- Well-formedness of a line: it holds no CRLF, and it is of the kind it is
said to be; the counts of a `db` line fit the 64-bit `int`. -/
def KsLine.wf (l : KsLine) : Bool :=
  noCRLF l.render &&
    match l with
    | .comment _ => true
    | .plain text => text.head? != some '#' && !text.contains ':'
    | .other key _ =>
      key.head? != some '#' && !key.contains ':' && !"db".toList.isPrefixOf key
    | .db suffix keys expires _ =>
      !suffix.contains ':' && decide (intMin ≤ keys ∧ keys ≤ intMax) &&
        decide (intMin ≤ expires ∧ expires ≤ intMax)

/-- The `keys=<int>` field of a line (0 for a line that is not a `db` line). -/
def KsLine.keys : KsLine → Int
  | .db _ keys _ _ => keys
  | _ => 0

/-- The `expires=<int>` field of a line (0 for a line that is not a `db` line). -/
def KsLine.expires : KsLine → Int
  | .db _ _ expires _ => expires
  | _ => 0

/-- The keyspace text made of the given lines, separated by CRLF. -/
def renderText (ls : List KsLine) : GoString :=
  List.intercalate "\r\n".toList (ls.map KsLine.render)

/-- The keyspace text of the example of C6: two databases, a final CRLF. -/
def keyspaceExample : List KsLine :=
  [.db "0".toList 10 2 "avg_ttl=0".toList, .db "1".toList 5 0 "avg_ttl=0".toList, .plain []]

/-! ## Machine integers -/

theorem wrapInt_wrapInt_add (a b : Int) : wrapInt (wrapInt a + b) = wrapInt (a + b) := by
  unfold wrapInt; omega

theorem wrapInt_add_wrapInt (a b : Int) : wrapInt (a + wrapInt b) = wrapInt (a + b) := by
  unfold wrapInt; omega

theorem wrapInt_sub_wrapInt (a b : Int) : wrapInt (wrapInt a - wrapInt b) = wrapInt (a - b) := by
  unfold wrapInt; omega

theorem wrapInt_of_fits (x : Int) (h : intMin ≤ x ∧ x ≤ intMax) : wrapInt x = x := by
  unfold wrapInt; unfold intMin intMax at h; omega

theorem wrapInt_zero : wrapInt 0 = 0 := by decide

/-! ## The slot walk -/

/-- While the cursor is below the end of the range, the per-slot loop never
finishes: the body leaves the cursor where it is. -/
theorem rankLoop_none (client : Client) (sEnd : Int) (fuel : Nat) (st : RankState)
    (h : st.pos < sEnd) : rankLoop client sEnd fuel st = none := by
  induction fuel generalizing st with
  | zero => rfl
  | succ n ih =>
    have h2 : (rankBody client st).pos < sEnd := h
    simp [rankLoop, h, ih _ h2]

/-- With ranking enabled, a range whose start is below its end keeps the walk in
the per-slot loop for every fuel. -/
theorem slotWalk_rank_pos_none (client : Client) (rank : Int) (hrank : rank > 0) (fuel : Nat)
    (s : ClusterSlot) (rest : List ClusterSlot) (slotStat : Int) (pl : PairList)
    (queries : List Int) (h : wrapInt s.Start < wrapInt s.End) :
    slotWalk client rank fuel (s :: rest) slotStat pl queries = none := by
  have hl : rankLoop client (wrapInt s.End) fuel
      { pos := wrapInt s.Start, pl := pl, queries := queries } = none :=
    rankLoop_none _ _ _ _ h
  simp [slotWalk, hrank, hl]

/-- After any number of runs of the body the cursor is unchanged and every query
so far was for the same slot. -/
theorem rankBody_iterate (client : Client) (st : RankState) (n : Nat) :
    (rankBody client)^[n] st =
      { pos := st.pos,
        pl := st.pl ++ List.replicate n
          { Key := st.pos, Value := client.ClusterCountKeysInSlot st.pos },
        queries := st.queries ++ List.replicate n st.pos } := by
  induction n generalizing st with
  | zero => simp
  | succ n ih =>
    rw [Function.iterate_succ_apply, ih]
    simp [rankBody, List.replicate_succ]

/-- With ranking disabled the walk finishes whatever the fuel, leaves `pl` and
the query record untouched and adds the range sizes to `slotStat`. -/
theorem slotWalk_rank_le_zero (client : Client) (rank : Int) (hrank : rank ≤ 0) (fuel : Nat)
    (slots : List ClusterSlot) (acc : Int) (pl : PairList) (queries : List Int) :
    slotWalk client rank fuel slots (wrapInt acc) pl queries =
      some (wrapInt (acc + slotSum slots), pl, queries) := by
  induction slots generalizing acc with
  | nil => simp [slotWalk, slotSum]
  | cons s rest ih =>
    have hr : ¬ rank > 0 := not_lt.mpr hrank
    have hstep : wrapInt (wrapInt acc + wrapInt (wrapInt s.End - wrapInt s.Start)) =
        wrapInt (acc + (s.End - s.Start)) := by
      rw [wrapInt_sub_wrapInt, wrapInt_wrapInt_add, wrapInt_add_wrapInt]
    simp only [slotWalk, hr, if_false, hstep]
    rw [ih]
    simp [slotSum, add_assoc]

/-- With ranking disabled `statsKeyInShard` issues no query and its result is
fixed by the slot ranges and the keyspace text. -/
theorem statsKeyInShard_rank_le_zero (sortSort : GoSort.Interface → PairList → PairList)
    (net : Network) (node : ClusterNode) (rank : Int) (hrank : rank ≤ 0) (fuel : Nat) :
    statsKeyInShard sortSort net node rank fuel =
      some { queries := [],
             result :=
               match keyspaceFold ((net node.IP node.Port).Info "keyspace".toList) with
               | .error e => .error e
               | .ok (keysStat, _) =>
                 .ok (wrapInt (slotSum node.Slots), keysStat, rankBySlotCount sortSort []) } := by
  have hw := slotWalk_rank_le_zero (net node.IP node.Port) rank hrank fuel node.Slots 0 [] []
  rw [wrapInt_zero, zero_add] at hw
  unfold statsKeyInShard
  simp only [hw]
  cases keyspaceFold ((net node.IP node.Port).Info "keyspace".toList) with
  | error e => rfl
  | ok v => rfl

/-- A sort that meets the contract of `sort.Sort` leaves the empty list empty. -/
theorem rankBySlotCount_nil (sortSort : GoSort.Interface → PairList → PairList)
    (hsort : GoSort.Sorts (GoSort.Reverse PairList.iface) sortSort) :
    rankBySlotCount sortSort [] = [] :=
  List.Perm.eq_nil (hsort []).1

/-- C1 (the code departs from the claim): for the node that owns `[100, 103)` and
`rank = 1`, `statsKeyInShard` never returns, whatever the fuel, and the per-slot
loop keeps its cursor at 100: after `n` runs of its body it has issued `n`
queries, all for slot 100, and none for the slots 101 and 102. -/
theorem statsKeyInShard_ranked_diverges :
    (∀ (sortSort : GoSort.Interface → PairList → PairList) (fuel : Nat),
      statsKeyInShard sortSort sampleNet nodeRanked 1 fuel = none) ∧
    (∀ n : Nat,
      (rankBody sampleClient)^[n] { pos := 100, pl := [], queries := [] } =
        { pos := 100, pl := List.replicate n { Key := 100, Value := 0 },
          queries := List.replicate n 100 }) := by
  refine ⟨?_, ?_⟩
  · intro sortSort fuel
    have h : rankLoop sampleClient (wrapInt 103) fuel
        { pos := wrapInt 100, pl := [], queries := [] } = none :=
      rankLoop_none _ _ _ _ (by decide)
    simp [statsKeyInShard, nodeRanked, sampleNet, slotWalk, h]
  · intro n
    rw [rankBody_iterate]
    simp [sampleClient]

/-- C2 (the code departs from the claim): for a cluster whose only master owns no
slot, the report loop computes `keysStat/slotStat` with `slotStat = 0` and stops
with the panic of an integer division by zero. -/
theorem reportLoop_divides_by_zero :
    ∀ (sortSort : GoSort.Interface → PairList → PairList) (fuel : Nat),
      reportLoop sortSort sampleNet fuel [nodeEmpty] [] = some (.error .divideByZero) := by
  intro sortSort fuel
  have hk : keyspaceFold ((sampleNet nodeEmpty.IP nodeEmpty.Port).Info "keyspace".toList) =
      .ok (10, 2) := by decide
  have hs := statsKeyInShard_rank_le_zero sortSort sampleNet nodeEmpty 0 (le_refl 0) fuel
  rw [hk] at hs
  have hsum : wrapInt (slotSum nodeEmpty.Slots) = 0 := by decide
  have hflags : nodeEmpty.Flags = ["master".toList] := rfl
  rw [hsum] at hs
  simp [reportLoop, hflags, reportFlags, reportMaster, hs, goDiv]

/-- C5: when `statsKeyInShard` is called with `rank ≤ 0` and the keyspace text
parses, it returns, and the returned `slotStat` is the sum of `End - Start` over
the slot ranges of the node in Go `int` arithmetic; it is the exact sum whenever
that sum fits the 64-bit `int`. -/
theorem statsKeyInShard_slotStat (sortSort : GoSort.Interface → PairList → PairList)
    (net : Network) (node : ClusterNode) (rank : Int) (fuel : Nat) (keysStat expiresStat : Int)
    (hrank : rank ≤ 0)
    (hkeys : keyspaceFold ((net node.IP node.Port).Info "keyspace".toList) =
      .ok (keysStat, expiresStat)) :
    (∃ queries pl, statsKeyInShard sortSort net node rank fuel =
      some { queries := queries,
             result := .ok (wrapInt (slotSum node.Slots), keysStat, pl) }) ∧
    (intMin ≤ slotSum node.Slots ∧ slotSum node.Slots ≤ intMax →
      wrapInt (slotSum node.Slots) = slotSum node.Slots) := by
  refine ⟨⟨[], rankBySlotCount sortSort [], ?_⟩, wrapInt_of_fits _⟩
  rw [statsKeyInShard_rank_le_zero sortSort net node rank hrank fuel, hkeys]

/-! ## The library sort on `sort.Reverse(pl)` -/

open GoSort

theorem reverse_less (p : PairList) (i j : Nat) :
    (Reverse PairList.iface).Less p i j = PairList.Less p j i := rfl

theorem reverse_len (p : PairList) : (Reverse PairList.iface).Len p = p.length := rfl

theorem reverse_swap (p : PairList) (i j : Nat) :
    (Reverse PairList.iface).Swap p i j = PairList.Swap p i j := rfl

theorem getElem?_mid (L R : List Pair) (y : Pair) : (L ++ y :: R)[L.length]? = some y := by
  rw [List.getElem?_append_right (le_refl _)]
  simp

theorem getElem?_mid_succ (L R : List Pair) (x y : Pair) :
    (L ++ y :: x :: R)[L.length + 1]? = some x := by
  have h : L ++ y :: x :: R = (L ++ [y]) ++ x :: R := by simp
  have hl : L.length + 1 = (L ++ [y]).length := by simp
  rw [h, hl]
  exact getElem?_mid _ _ _

theorem less_adjacent (L R : List Pair) (x y : Pair) :
    PairList.Less (L ++ y :: x :: R) L.length (L.length + 1) = decide (y.Value < x.Value) := by
  simp only [PairList.Less, getElem?_mid, getElem?_mid_succ]

theorem swap_adjacent (L R : List Pair) (x y : Pair) :
    PairList.Swap (L ++ y :: x :: R) (L.length + 1) L.length = L ++ x :: y :: R := by
  simp only [PairList.Swap, getElem?_mid, getElem?_mid_succ]
  simp [List.set_append]

theorem insertionInner_eq (x : Pair) (M R : List Pair) :
    insertionInner (Reverse PairList.iface) 0 M.length (M.reverse ++ x :: R) =
      (List.orderedInsert Pair.le x M).reverse ++ R := by
  induction M generalizing R with
  | nil => simp [insertionInner]
  | cons y M ih =>
    have hlen : (y :: M).length = M.reverse.length + 1 := by simp
    have hp : (y :: M).reverse ++ x :: R = M.reverse ++ y :: x :: R := by simp
    rw [hp, hlen, insertionInner, reverse_less, reverse_swap, less_adjacent, swap_adjacent]
    by_cases h : y.Value < x.Value
    · have hle : ¬ Pair.le x y := by simpa [Pair.le] using h
      have := ih (y :: R)
      simp only [List.length_reverse] at this ⊢
      simp [h, this, List.orderedInsert, hle]
    · have hle : Pair.le x y := by simpa [Pair.le] using h
      simp [h, List.orderedInsert, hle]


theorem insertionFold_eq (todo M : List Pair) :
    (List.range' M.length todo.length).foldl
        (fun q i => insertionInner (Reverse PairList.iface) 0 i q) (M.reverse ++ todo) =
      (todo.foldl (fun acc x => List.orderedInsert Pair.le x acc) M).reverse := by
  induction todo generalizing M with
  | nil => simp
  | cons x t ih =>
    have hlen : (List.orderedInsert Pair.le x M).length = M.length + 1 :=
      List.orderedInsert_length _ _ _
    simp only [List.length_cons, List.range'_succ, List.foldl_cons, insertionInner_eq]
    rw [← hlen]
    exact ih _

/-- Insertion sort through the interface is insertion of each element, from
left to right, into the reversed sorted part. -/
theorem sortInsertion_eq (p : PairList) :
    sortInsertion (Reverse PairList.iface) p =
      (p.foldl (fun acc x => List.orderedInsert Pair.le x acc) []).reverse := by
  cases p with
  | nil => simp [sortInsertion, insertionSort, reverse_len]
  | cons x t =>
    have h := insertionFold_eq t [x]
    simp only [List.length_singleton, List.reverse_singleton, List.singleton_append] at h
    simp only [sortInsertion, insertionSort, reverse_len, List.length_cons, zero_add,
      Nat.add_sub_cancel, List.foldl_cons, List.orderedInsert]
    exact h

theorem foldl_orderedInsert_perm (todo M : List Pair) :
    (todo.foldl (fun acc x => List.orderedInsert Pair.le x acc) M).Perm (todo ++ M) := by
  induction todo generalizing M with
  | nil => simp
  | cons x t ih =>
    simp only [List.foldl_cons, List.cons_append]
    refine (ih _).trans ?_
    refine (List.Perm.append_left t (List.perm_orderedInsert Pair.le x M)).trans ?_
    exact List.perm_middle

theorem foldl_orderedInsert_sorted (todo M : List Pair) (h : M.Sorted Pair.le) :
    (todo.foldl (fun acc x => List.orderedInsert Pair.le x acc) M).Sorted Pair.le := by
  induction todo generalizing M with
  | nil => simpa using h
  | cons x t ih =>
    simp only [List.foldl_cons]
    exact ih _ (h.orderedInsert x M)

theorem foldl_orderedInsert_filter (v : Int) (todo M : List Pair) :
    (todo.foldl (fun acc x => List.orderedInsert Pair.le x acc) M).filter
        (fun a => decide (a.Value = v)) =
      (todo.filter (fun a => decide (a.Value = v))).reverse ++
        M.filter (fun a => decide (a.Value = v)) := by
  have hins : ∀ (x : Pair) (M : List Pair),
      (List.orderedInsert Pair.le x M).filter (fun a => decide (a.Value = v)) =
        [x].filter (fun a => decide (a.Value = v)) ++ M.filter (fun a => decide (a.Value = v)) := by
    intro x M
    induction M with
    | nil => simp
    | cons y M ih =>
      by_cases hle : Pair.le x y
      · simp only [List.orderedInsert, hle, if_true, List.filter_cons]
        by_cases hx : x.Value = v <;> simp [hx]
      · have hlt : y.Value < x.Value := by simpa [Pair.le] using hle
        simp only [List.orderedInsert, hle, if_false, List.filter_cons, ih]
        by_cases hx : x.Value = v
        · have hy : ¬ y.Value = v := by omega
          simp [hx, hy]
        · simp [hx]
  induction todo generalizing M with
  | nil => simp
  | cons x t ih =>
    simp only [List.foldl_cons, ih, hins, List.filter_cons]
    by_cases hx : x.Value = v <;> simp [hx]

/-- The order in index form (the postcondition of `sort.Sort` on
`sort.Reverse(pl)`) is the same as values that do not increase. -/
theorem reverse_sorted_iff (out : PairList) :
    (∀ i j : Nat, i < j → j < (Reverse PairList.iface).Len out →
        (Reverse PairList.iface).Less out j i = false) ↔
      out.Pairwise (fun a b => b.Value ≤ a.Value) := by
  rw [List.pairwise_iff_getElem]
  constructor
  · intro h i j hi hj hij
    have := h i j hij hj
    simpa [reverse_less, PairList.Less, List.getElem?_eq_getElem hi,
      List.getElem?_eq_getElem hj] using this
  · intro h i j hij hj
    have hj2 : j < out.length := hj
    have hi : i < out.length := lt_trans hij hj2
    have := h i j hi hj2 hij
    simpa [reverse_less, PairList.Less, List.getElem?_eq_getElem hi,
      List.getElem?_eq_getElem hj2] using this

/-- Insertion sort meets the contract of `sort.Sort` on `sort.Reverse(pl)`. -/
theorem sortInsertion_sorts : Sorts (Reverse PairList.iface) sortInsertion := by
  intro p
  refine ⟨?_, ?_⟩
  · rw [sortInsertion_eq]
    refine (List.reverse_perm _).trans ?_
    simpa using foldl_orderedInsert_perm p []
  · rw [reverse_sorted_iff, sortInsertion_eq, List.pairwise_reverse]
    exact foldl_orderedInsert_sorted p [] List.sorted_nil

/-- Insertion sort keeps pairs of equal `Value` in their input order. -/
theorem sortInsertion_filter (p : PairList) (v : Int) :
    (sortInsertion (Reverse PairList.iface) p).filter (fun a => decide (a.Value = v)) =
      p.filter (fun a => decide (a.Value = v)) := by
  rw [sortInsertion_eq, List.filter_reverse, foldl_orderedInsert_filter]
  simp

theorem perm_cons_set (t : List Pair) (j : Nat) (a y : Pair) (h : t[j]? = some y) :
    (y :: t.set j a).Perm (a :: t) := by
  induction t generalizing j with
  | nil => simp at h
  | cons b t ih =>
    cases j with
    | zero =>
      simp only [List.getElem?_cons_zero, Option.some.injEq] at h
      subst h
      simpa using List.Perm.swap a b t
    | succ j =>
      simp only [List.getElem?_cons_succ] at h
      simp only [List.set_cons_succ]
      exact (List.Perm.swap b y _).trans (((ih j h).cons b).trans (List.Perm.swap a b t))

/-- The method `Swap` rearranges the list. -/
theorem swap_perm (p : PairList) (i j : Nat) : (PairList.Swap p i j).Perm p := by
  unfold PairList.Swap
  induction p generalizing i j with
  | nil => simp
  | cons a t ih =>
    cases i with
    | zero =>
      cases j with
      | zero => simp
      | succ j =>
        cases hj : t[j]? with
        | none => simp [hj]
        | some y => simpa [hj] using perm_cons_set t j a y hj
    | succ i =>
      cases j with
      | zero =>
        cases hi : t[i]? with
        | none => simp [hi]
        | some x => simpa [hi] using perm_cons_set t i a x hi
      | succ j =>
        have := ih i j
        cases hi : t[i]? with
        | none => simp [hi]
        | some x =>
          cases hj : t[j]? with
          | none => simp [hi, hj]
          | some y =>
            simp only [hi, hj] at this
            simpa [hi, hj] using this

theorem gapPass_perm (p : PairList) (a b : Nat) :
    (gapPass (Reverse PairList.iface) p a b).Perm p := by
  unfold gapPass
  generalize List.range' (a + 6) (b - (a + 6)) = idx
  induction idx generalizing p with
  | nil => simp
  | cons i rest ih =>
    simp only [List.foldl_cons]
    refine (ih _).trans ?_
    split
    · exact swap_perm p i (i - 6)
    · exact List.Perm.refl p

/-- The gap-6 pass followed by insertion sort meets the contract of `sort.Sort`
on `sort.Reverse(pl)`. -/
theorem sortShell_sorts : Sorts (Reverse PairList.iface) sortShell := by
  intro p
  by_cases hlen : 1 < (Reverse PairList.iface).Len p
  · have hg := gapPass_perm p 0 ((Reverse PairList.iface).Len p)
    have hl : (Reverse PairList.iface).Len p =
        (Reverse PairList.iface).Len (gapPass (Reverse PairList.iface) p 0
          ((Reverse PairList.iface).Len p)) := by
      simp only [reverse_len]
      exact hg.length_eq.symm
    have he : sortShell (Reverse PairList.iface) p =
        sortInsertion (Reverse PairList.iface)
          (gapPass (Reverse PairList.iface) p 0 ((Reverse PairList.iface).Len p)) := by
      unfold sortShell sortInsertion
      rw [if_pos hlen, ← hl]
    rw [he]
    have hs := sortInsertion_sorts
      (gapPass (Reverse PairList.iface) p 0 ((Reverse PairList.iface).Len p))
    exact ⟨hs.1.trans hg, hs.2⟩
  · have he : sortShell (Reverse PairList.iface) p = p := by
      unfold sortShell
      rw [if_neg hlen]
    rw [he]
    refine ⟨List.Perm.refl p, ?_⟩
    intro i j hij hj
    exact absurd (lt_of_le_of_lt (Nat.succ_le_of_lt (Nat.lt_of_le_of_lt (Nat.zero_le i) hij)) hj) hlen

/-! ## Ranking -/

/-- The output of a conforming sort on `sort.Reverse(pl)`: a permutation with
`Value`s that do not increase. -/
theorem rank_perm_and_sorted (sortSort : GoSort.Interface → PairList → PairList)
    (hsort : Sorts (Reverse PairList.iface) sortSort) (pl : PairList) :
    (rankBySlotCount sortSort pl).Perm pl ∧
      ((rankBySlotCount sortSort pl).map Pair.Value).Sorted (fun a b => a ≥ b) := by
  refine ⟨(hsort pl).1, ?_⟩
  have h := (reverse_sorted_iff _).mp (hsort pl).2
  unfold List.Sorted
  rw [List.pairwise_map]
  exact h

/-- C4: for every `sort.Sort` that meets its contract and every list of pairs,
`rankBySlotCount` returns a permutation of its input whose `Value`s do not
increase from front to back. -/
theorem rankBySlotCount_perm_sorted (sortSort : GoSort.Interface → PairList → PairList)
    (hsort : Sorts (Reverse PairList.iface) sortSort) (pl : PairList) :
    (rankBySlotCount sortSort pl).Perm pl ∧
      ((rankBySlotCount sortSort pl).map Pair.Value).Sorted (fun a b => a ≥ b) :=
  rank_perm_and_sorted sortSort hsort pl

/-- Witness of C4 on the ranking example, sorted by insertion sort. -/
theorem rankBySlotCount_perm_sorted_witness :
    Sorts (Reverse PairList.iface) sortInsertion ∧
      (rankBySlotCount sortInsertion rankExample).Perm rankExample ∧
      ((rankBySlotCount sortInsertion rankExample).map Pair.Value).Sorted (fun a b => a ≥ b) :=
  ⟨sortInsertion_sorts, rankBySlotCount_perm_sorted sortInsertion sortInsertion_sorts rankExample⟩

/-- C3 fails as stated: the gap-6 pass followed by insertion sort meets the
contract of `sort.Sort`, and on seven pairs it moves slot 0 behind slot 1 although
both hold 5 keys and slot 0 came first. -/
theorem rankBySlotCount_not_stable :
    Sorts (Reverse PairList.iface) sortShell ∧
      ({ Key := 0, Value := 5 } : Pair).Value = ({ Key := 1, Value := 5 } : Pair).Value ∧
      List.Sublist [{ Key := 0, Value := 5 }, { Key := 1, Value := 5 }] tiesExample ∧
      rankBySlotCount sortShell tiesExample =
        [{ Key := 6, Value := 9 }, { Key := 1, Value := 5 }, { Key := 2, Value := 5 },
         { Key := 3, Value := 5 }, { Key := 4, Value := 5 }, { Key := 5, Value := 5 },
         { Key := 0, Value := 5 }] ∧
      ¬ List.Sublist [{ Key := 0, Value := 5 }, { Key := 1, Value := 5 }]
          (rankBySlotCount sortShell tiesExample) :=
  ⟨sortShell_sorts, by decide, by decide, by decide, by decide⟩

/-- C3 as amended: for every list of pairs and every `sort.Sort` that meets its
contract, the sequence of `Value`s of the output of `rankBySlotCount` is the same
as with insertion sort; when `sort.Sort` is insertion sort, `rankBySlotCount`
keeps pairs of equal `Value` in their input order for every list (if `p` precedes
`q` in the input and `p.Value = q.Value` then `p` precedes `q` in the output); and
the ranking example yields `[(2,9),(3,9),(1,5),(4,1)]`. -/
theorem rankBySlotCount_stable_insertion :
    (∀ (sortSort : GoSort.Interface → PairList → PairList) (pl : PairList),
      Sorts (Reverse PairList.iface) sortSort →
        (rankBySlotCount sortSort pl).map Pair.Value =
          (rankBySlotCount sortInsertion pl).map Pair.Value) ∧
    (∀ (pl : PairList) (p q : Pair), p.Value = q.Value → List.Sublist [p, q] pl →
      List.Sublist [p, q] (rankBySlotCount sortInsertion pl)) ∧
    rankBySlotCount sortInsertion rankExample =
      [{ Key := 2, Value := 9 }, { Key := 3, Value := 9 }, { Key := 1, Value := 5 },
       { Key := 4, Value := 1 }] := by
  refine ⟨?_, ?_, by decide⟩
  · intro sortSort pl hsort
    have h1 := rank_perm_and_sorted sortSort hsort pl
    have h2 := rank_perm_and_sorted sortInsertion sortInsertion_sorts pl
    exact List.eq_of_perm_of_sorted ((h1.1.trans h2.1.symm).map Pair.Value) h1.2 h2.2
  · intro pl p q hv hpq
    have hf := hpq.filter (fun a => decide (a.Value = q.Value))
    have hpqf : List.filter (fun a => decide (a.Value = q.Value)) [p, q] = [p, q] := by
      simp [List.filter_cons, hv]
    rw [hpqf, ← sortInsertion_filter pl q.Value] at hf
    exact hf.trans (List.filter_sublist _)

/-- Witness of the amended C3: the gap-6 sort gives the same `Value`s as insertion
sort on the seven pairs, on the empty list and on a list without a tie; insertion
sort keeps the slots 1 and 2, which hold 5 keys each, in their input order. -/
theorem rankBySlotCount_stable_insertion_witness :
    Sorts (Reverse PairList.iface) sortShell ∧
      (rankBySlotCount sortShell tiesExample).map Pair.Value =
        (rankBySlotCount sortInsertion tiesExample).map Pair.Value ∧
      (rankBySlotCount sortShell []).map Pair.Value =
        (rankBySlotCount sortInsertion []).map Pair.Value ∧
      (rankBySlotCount sortShell [{ Key := 1, Value := 5 }, { Key := 2, Value := 9 }]).map
          Pair.Value =
        (rankBySlotCount sortInsertion [{ Key := 1, Value := 5 }, { Key := 2, Value := 9 }]).map
          Pair.Value ∧
      ({ Key := 1, Value := 5 } : Pair).Value = ({ Key := 2, Value := 5 } : Pair).Value ∧
      List.Sublist [({ Key := 1, Value := 5 } : Pair), { Key := 2, Value := 5 }] tiesExample ∧
      List.Sublist [({ Key := 1, Value := 5 } : Pair), { Key := 2, Value := 5 }]
        (rankBySlotCount sortInsertion tiesExample) :=
  ⟨sortShell_sorts,
    rankBySlotCount_stable_insertion.1 sortShell tiesExample sortShell_sorts,
    rankBySlotCount_stable_insertion.1 sortShell [] sortShell_sorts,
    rankBySlotCount_stable_insertion.1 sortShell [{ Key := 1, Value := 5 }, { Key := 2, Value := 9 }]
      sortShell_sorts,
    rfl, by decide,
    rankBySlotCount_stable_insertion.2.1 tiesExample { Key := 1, Value := 5 }
      { Key := 2, Value := 5 } rfl (by decide)⟩

/-- C9: when `rank ≤ 0`, `statsKeyInShard` issues no `ClusterCountKeysInSlot`
query, whatever the fuel, and, unless the keyspace text stops the process, it
returns the accumulated slot count together with an empty ranked list. -/
theorem statsKeyInShard_unranked (sortSort : GoSort.Interface → PairList → PairList)
    (net : Network) (node : ClusterNode) (rank : Int) (fuel : Nat)
    (hsort : Sorts (Reverse PairList.iface) sortSort) (hrank : rank ≤ 0) :
    statsKeyInShard sortSort net node rank fuel =
      some { queries := [],
             result :=
               match keyspaceFold ((net node.IP node.Port).Info "keyspace".toList) with
               | .error e => .error e
               | .ok (keysStat, _) => .ok (wrapInt (slotSum node.Slots), keysStat, []) } := by
  rw [statsKeyInShard_rank_le_zero sortSort net node rank hrank fuel,
    rankBySlotCount_nil sortSort hsort]

/-- Witness of C9: the master of `[100, 103)` with `rank = 0` and no fuel. -/
theorem statsKeyInShard_unranked_witness :
    Sorts (Reverse PairList.iface) sortInsertion ∧ (0 : Int) ≤ 0 ∧
      statsKeyInShard sortInsertion sampleNet nodeRanked 0 0 =
        some { queries := [], result := .ok (3, 10, []) } :=
  ⟨sortInsertion_sorts, le_refl 0,
    (statsKeyInShard_unranked sortInsertion sampleNet nodeRanked 0 0 sortInsertion_sorts
      (le_refl 0)).trans (by decide)⟩

/-- Witness of C5: the master of `[100, 103)` with `rank = 0`. -/
theorem statsKeyInShard_slotStat_witness :
    (0 : Int) ≤ 0 ∧
      keyspaceFold ((sampleNet nodeRanked.IP nodeRanked.Port).Info "keyspace".toList) =
        .ok (10, 2) ∧
      (∃ queries pl, statsKeyInShard sortInsertion sampleNet nodeRanked 0 0 =
        some { queries := queries, result := .ok (wrapInt (slotSum nodeRanked.Slots), 10, pl) }) ∧
      wrapInt (slotSum nodeRanked.Slots) = 3 :=
  ⟨le_refl 0, by decide,
    (statsKeyInShard_slotStat sortInsertion sampleNet nodeRanked 0 0 10 2 (le_refl 0)
      (by decide)).1, by decide⟩

/-! ## Splitting text, and the memory section -/

open Strings

theorem isPrefixOf_single (c : Char) (s : GoString) :
    List.isPrefixOf [c] s = (s.head? == some c) := by
  cases s with
  | nil => rfl
  | cons a t =>
    simp only [List.isPrefixOf, List.head?_cons]
    by_cases h : c = a
    · subst h; simp
    · have h2 : ¬ a = c := fun e => h e.symm
      simp [h, h2]

/-- Cutting at a one-character separator: the text before and after its first
occurrence. -/
theorem cut_single (c : Char) (s : GoString) :
    cut [c] s = if c ∈ s then some (beforeFirst c s, afterFirst c s) else none := by
  induction s with
  | nil => simp [cut]
  | cons a t ih =>
    by_cases h : a = c
    · subst h
      simp [cut, beforeFirst, afterFirst, List.isPrefixOf]
    · have h2 : ¬ c = a := fun e => h e.symm
      simp only [cut, List.isPrefixOf, ih]
      by_cases hm : c ∈ t
      · simp [hm, h, h2, beforeFirst, afterFirst, List.takeWhile_cons, List.dropWhile_cons]
      · simp [hm, h, h2]

theorem splitN_two (c : Char) (s : GoString) :
    SplitN [c] 2 s = if c ∈ s then [beforeFirst c s, afterFirst c s] else [s] := by
  simp only [SplitN, cut_single]
  by_cases hm : c ∈ s <;> simp [hm, SplitN]

theorem hasPrefix_hash (line : GoString) :
    HasPrefix line "#".toList = (line.head? == some '#') :=
  isPrefixOf_single '#' line

/-- One step of the memory loop: an entry line binds its key, any other line is
skipped. -/
theorem memoryStep_eq (stat : StatMap) (line : GoString) :
    memoryStep stat line =
      if isEntry line then stat.set (beforeFirst ':' line) (afterFirst ':' line) else stat := by
  have hc : ":".toList = [':'] := rfl
  unfold memoryStep isEntry
  rw [hasPrefix_hash, hc, splitN_two]
  by_cases h1 : line.head? = some '#'
  · simp [h1]
  · by_cases h2 : ':' ∈ line <;> simp [h1, h2]

theorem find?_filter_of_imp {α : Type} (p q : α → Bool) (l : List α)
    (h : ∀ x, p x = true → q x = true) : (l.filter q).find? p = l.find? p := by
  induction l with
  | nil => rfl
  | cons a t ih =>
    by_cases hq : q a = true
    · simp [List.filter_cons, hq, List.find?_cons, ih]
    · have hp : ¬ p a = true := fun hp => hq (h a hp)
      simp [List.filter_cons, hq, List.find?_cons, ih, hp]

theorem StatMap.get_set_same (stat : StatMap) (k v : GoString) : (stat.set k v).get k = v := by
  simp [StatMap.get, StatMap.set]

theorem StatMap.get_set_other (stat : StatMap) (k k2 v : GoString) (h : k2 ≠ k) :
    (stat.set k2 v).get k = stat.get k := by
  unfold StatMap.get StatMap.set
  have hne : ¬ (k2 == k) = true := by simpa using h
  rw [List.find?_cons]
  simp only [hne]
  rw [find?_filter_of_imp]
  intro x hx
  have hxk : x.1 = k := by simpa using hx
  simp [hxk, Ne.symm h]

theorem getLast?_cons_match (a : GoString) (l : List GoString) :
    (a :: l).getLast? =
      match l.getLast? with
      | some x => some x
      | none => some a := by
  cases l with
  | nil => rfl
  | cons b t =>
    rw [List.getLast?_cons_cons]
    cases h : (b :: t).getLast? with
    | some x => rfl
    | none => simp at h

theorem getLast?_filter_cons (p : GoString → Bool) (a : GoString) (l : List GoString) :
    ((a :: l).filter p).getLast? =
      match (l.filter p).getLast? with
      | some x => some x
      | none => if p a then some a else none := by
  by_cases h : p a = true
  · simp only [List.filter_cons, h, if_true]
    exact getLast?_cons_match a _
  · rw [List.filter_cons, if_neg h]
    cases h2 : (l.filter p).getLast? with
    | some x => rfl
    | none => simp [h]

/-- The lookup of `key` after the memory loop: the value of the last entry line
for `key`, or what the map held before. -/
theorem memoryFold_get (key : GoString) (lines : List GoString) (stat : StatMap) :
    (lines.foldl memoryStep stat).get key =
      match (lines.filter (isEntryFor key)).getLast? with
      | some line => afterFirst ':' line
      | none => stat.get key := by
  induction lines generalizing stat with
  | nil => simp
  | cons l ls ih =>
    rw [List.foldl_cons, ih, getLast?_filter_cons]
    cases hls : (ls.filter (isEntryFor key)).getLast? with
    | some x => rfl
    | none =>
      simp only [memoryStep_eq]
      by_cases he : isEntry l = true
      · by_cases hk : beforeFirst ':' l = key
        · have : isEntryFor key l = true := by simp [isEntryFor, he, hk]
          simp only [he, this, if_true]
          rw [← hk]
          exact StatMap.get_set_same _ _ _
        · have : ¬ isEntryFor key l = true := by simp [isEntryFor, he, hk]
          simp only [he, this, if_true]
          exact StatMap.get_set_other _ _ _ _ hk
      · have : ¬ isEntryFor key l = true := by simp [isEntryFor, he]
        simp [he, this]

/-- Every binding of the map comes from an entry line. -/
theorem memoryFold_mem (lines : List GoString) (stat : StatMap) (e : GoString × GoString)
    (h : e ∈ lines.foldl memoryStep stat) :
    e ∈ stat ∨ ∃ line ∈ lines, isEntry line = true ∧
      e = (beforeFirst ':' line, afterFirst ':' line) := by
  induction lines generalizing stat with
  | nil => exact Or.inl h
  | cons l ls ih =>
    rw [List.foldl_cons] at h
    rcases ih _ h with h1 | ⟨line, hl, he, heq⟩
    · rw [memoryStep_eq] at h1
      by_cases hent : isEntry l = true
      · simp only [hent, if_true, StatMap.set, List.mem_cons] at h1
        rcases h1 with h1 | h1
        · exact Or.inr ⟨l, List.mem_cons_self _ _, hent, h1⟩
        · exact Or.inl (List.mem_of_mem_filter h1)
      · simp only [hent] at h1
        exact Or.inl h1
    · exact Or.inr ⟨line, List.mem_cons_of_mem _ hl, he, heq⟩

/-- C7: `statsMemoryInShard` returns the text after the first `:` of the last
CRLF-separated line that does not begin with `#`, contains a `:` and has exactly
`used_memory` before its first `:`, and the empty string when there is no such
line; every key of the map it builds comes from a line that is not a comment and
contains a `:`; the text `# comment`, `used_memory:12345` yields `12345`. -/
theorem statsMemoryInShard_spec (net : Network) (node : ClusterNode) :
    statsMemoryInShard net node = memorySpec ((net node.IP node.Port).Info "memory".toList) ∧
    (∀ e ∈ memoryMap ((net node.IP node.Port).Info "memory".toList),
      ∃ line ∈ Strings.Split ((net node.IP node.Port).Info "memory".toList) "\r\n".toList,
        line.head? ≠ some '#' ∧ ':' ∈ line ∧
        e = (beforeFirst ':' line, afterFirst ':' line)) ∧
    memoryStat "# comment\r\nused_memory:12345\r\n".toList = "12345".toList := by
  refine ⟨?_, ?_, by decide⟩
  · unfold statsMemoryInShard memoryStat memorySpec
    rw [memoryFold_get]
    cases ((Strings.Split ((net node.IP node.Port).Info "memory".toList) "\r\n".toList).filter
      (isEntryFor "used_memory".toList)).getLast? <;> rfl
  · intro e he
    rcases memoryFold_mem _ _ e he with h | ⟨line, hl, hent, heq⟩
    · simp at h
    · refine ⟨line, hl, ?_, ?_, heq⟩
      · intro hh; simp [isEntry, hh] at hent
      · simp [isEntry] at hent; exact hent.2

/-! ## The keyspace section -/

theorem beforeFirst_of_not_mem (c : Char) (s : GoString) (h : c ∉ s) : beforeFirst c s = s := by
  unfold beforeFirst
  rw [List.takeWhile_eq_self_iff]
  intro x hx
  have : x ≠ c := fun e => h (e ▸ hx)
  simpa using this

theorem splitN_three (c : Char) (s : GoString) :
    SplitN [c] 3 s =
      if c ∈ s then
        beforeFirst c s ::
          (if c ∈ afterFirst c s then
            [beforeFirst c (afterFirst c s), afterFirst c (afterFirst c s)]
          else [afterFirst c s])
      else [s] := by
  have h : SplitN [c] 3 s =
      match cut [c] s with
      | none => [s]
      | some (b, a) => b :: SplitN [c] 2 a := rfl
  rw [h, cut_single]
  by_cases hm : c ∈ s
  · simp only [hm, if_true, splitN_two]
  · simp only [hm, if_false]

/-- The fields `kv[0]` and `kv[1]` of a value that contains a comma. -/
theorem splitN_three_fields (v : GoString) (h : ',' ∈ v) :
    index (SplitN [','] 3 v) 0 = .ok (beforeFirst ',' v) ∧
    index (SplitN [','] 3 v) 1 = .ok (beforeFirst ',' (afterFirst ',' v)) := by
  rw [splitN_three]
  by_cases h5 : ',' ∈ afterFirst ',' v
  · simp [h, h5, index]
  · simp [h, h5, index, beforeFirst_of_not_mem _ _ h5]

theorem splitN_two_second (c : Char) (s : GoString) :
    index (SplitN [c] 2 s) 1 =
      if c ∈ s then .ok (afterFirst c s) else .error .indexOutOfRange := by
  rw [splitN_two]
  by_cases h : c ∈ s <;> simp [h, index]

/-- One step of the keyspace loop, case by case. -/
theorem keyspaceStep_eq (st : Int × Int) (line : GoString) :
    keyspaceStep st line = keyspaceStepCases st line := by
  have hc : ":".toList = [':'] := rfl
  have hcomma : ",".toList = [','] := rfl
  have heq : "=".toList = ['='] := rfl
  unfold keyspaceStep keyspaceStepCases isDbEntry isEntry
  rw [hasPrefix_hash, hc, hcomma, heq, splitN_two]
  by_cases h1 : line.head? = some '#'
  · simp [h1]
  · by_cases h2 : ':' ∈ line
    · by_cases h3 : ['d', 'b'] <+: beforeFirst ':' line
      · by_cases h4 : ',' ∈ afterFirst ':' line
        · obtain ⟨hk0, hk1⟩ := splitN_three_fields _ h4
          by_cases h6 : '=' ∈ beforeFirst ',' (afterFirst ':' line)
          · cases hk : Strconv.Atoi (afterFirst '=' (beforeFirst ',' (afterFirst ':' line))) with
            | none =>
              simp [h1, h2, h3, h4, h6, hk, bind, Except.bind, HasPrefix, hk0, hk1,
                splitN_two_second, firstField, secondField, keysText, expiresText]
            | some k =>
              by_cases h7 : '=' ∈ beforeFirst ',' (afterFirst ',' (afterFirst ':' line))
              · cases he : Strconv.Atoi (afterFirst '='
                    (beforeFirst ',' (afterFirst ',' (afterFirst ':' line)))) with
                | none =>
                  simp [h1, h2, h3, h4, h6, h7, hk, he, bind, Except.bind, HasPrefix, hk0, hk1,
                    splitN_two_second, firstField, secondField, keysText, expiresText]
                | some e =>
                  simp [h1, h2, h3, h4, h6, h7, hk, he, bind, Except.bind, HasPrefix, hk0, hk1,
                    splitN_two_second, firstField, secondField, keysText, expiresText]
              · simp [h1, h2, h3, h4, h6, h7, hk, bind, Except.bind, HasPrefix, hk0, hk1,
                  splitN_two_second, firstField, secondField, keysText, expiresText]
          · simp [h1, h2, h3, h4, h6, bind, Except.bind, HasPrefix, hk0, hk1,
              splitN_two_second, firstField, secondField, keysText, expiresText]
        · simp [h1, h2, h3, h4, HasPrefix, splitN_three, index, bind, Except.bind]
      · simp [h1, h2, h3, HasPrefix]
    · simp [h1, h2]

theorem digitVal_isDigit (c : Char) (d : Nat) (h : Strconv.digitVal c = some d) :
    c.isDigit = true := by
  unfold Strconv.digitVal at h
  split at h
  · rename_i hc
    simp only [Char.isDigit, Char.toNat] at *
    simp only [Bool.and_eq_true, decide_eq_true_eq, ge_iff_le, UInt32.le_def]
    exact hc
  · simp at h

theorem parseDigits_all_digits (s : GoString) (n m : Nat)
    (h : Strconv.parseDigits s n = some m) : s.all Char.isDigit = true := by
  induction s generalizing n with
  | nil => rfl
  | cons c t ih =>
    unfold Strconv.parseDigits at h
    cases hd : Strconv.digitVal c with
    | none => simp [hd] at h
    | some d =>
      simp only [hd] at h
      simp [digitVal_isDigit c d hd, ih _ h]

/-- What `Atoi` accepts is a decimal integer. -/
theorem atoi_isDecimalInteger (s : GoString) (v : Int) (h : Strconv.Atoi s = some v) :
    isDecimalInteger s = true := by
  unfold Strconv.Atoi Strconv.unsigned at h
  unfold isDecimalInteger
  simp only at h ⊢
  generalize (match s with
    | '-' :: t => t
    | '+' :: t => t
    | _ => s) = body at h ⊢
  by_cases hne : body.isEmpty = true
  · simp [hne] at h
  · cases hp : Strconv.parseDigits body 0 with
    | none => simp [hp] at h
    | some n =>
      have := parseDigits_all_digits _ _ _ hp
      simp only [Bool.and_eq_true, Bool.not_eq_true', this, and_true]
      simpa using hne

theorem keyspaceStep_error_kinds (st : Int × Int) (line : GoString) (e : Abort)
    (h : keyspaceStep st line = .error e) : e = .exit 1 ∨ e = .indexOutOfRange := by
  rw [keyspaceStep_eq] at h
  unfold keyspaceStepCases at h
  repeat' split at h
  all_goals first
    | (cases h; exact Or.inl rfl)
    | (cases h; exact Or.inr rfl)
    | cases h

theorem keyspaceStep_no_panic (st : Int × Int) (line : GoString)
    (h : (!isDbEntry line || fieldsIndexable line) = true) :
    keyspaceStep st line ≠ .error .indexOutOfRange := by
  rw [keyspaceStep_eq]
  unfold keyspaceStepCases
  by_cases hd : isDbEntry line = true
  · have hf : fieldsIndexable line = true := by simpa [hd] using h
    simp [fieldsIndexable] at hf
    obtain ⟨⟨h4, h6⟩, h7⟩ := hf
    simp only [hd, h4, h6, h7, if_true]
    cases Strconv.Atoi (keysText line) with
    | none => simp
    | some k =>
      cases Strconv.Atoi (expiresText line) with
      | none => simp
      | some e => simp
  · simp [hd]

theorem keyspaceStep_unindexable (st : Int × Int) (line : GoString)
    (hd : isDbEntry line = true) (hf : fieldsIndexable line = false) :
    keyspaceStep st line = .error .indexOutOfRange ∨
      (',' ∈ afterFirst ':' line ∧ '=' ∈ firstField line ∧
        Strconv.Atoi (keysText line) = none ∧ keyspaceStep st line = .error (.exit 1)) := by
  rw [keyspaceStep_eq]
  unfold keyspaceStepCases
  simp only [hd, if_true]
  by_cases h4 : ',' ∈ afterFirst ':' line
  · by_cases h6 : '=' ∈ firstField line
    · have h7 : ¬ '=' ∈ secondField line := by
        intro h7
        simp [fieldsIndexable, h4, h6, h7] at hf
      cases hk : Strconv.Atoi (keysText line) with
      | none => simp [h4, h6]
      | some k => simp [h4, h6, h7]
    · simp [h4, h6]
  · simp [h4]

theorem keyspaceStep_bad_integer (st : Int × Int) (line : GoString)
    (hd : isDbEntry line = true) (hb : hasBadInteger line = true) :
    ∃ e, keyspaceStep st line = .error e := by
  rw [keyspaceStep_eq]
  unfold keyspaceStepCases
  simp only [hd, if_true]
  by_cases h4 : ',' ∈ afterFirst ':' line
  · by_cases h6 : '=' ∈ firstField line
    · cases hk : Strconv.Atoi (keysText line) with
      | none => exact ⟨.exit 1, by simp [h4, h6]⟩
      | some k =>
        by_cases h7 : '=' ∈ secondField line
        · cases he : Strconv.Atoi (expiresText line) with
          | none => exact ⟨.exit 1, by simp [h4, h6, h7]⟩
          | some e =>
            have d1 := atoi_isDecimalInteger _ _ hk
            have d2 := atoi_isDecimalInteger _ _ he
            simp [hasBadInteger, d1, d2] at hb
        · exact ⟨.indexOutOfRange, by simp [h4, h6, h7]⟩
    · exact ⟨.indexOutOfRange, by simp [h4, h6]⟩
  · exact ⟨.indexOutOfRange, by simp [h4]⟩

/-- A fold stops with an error as soon as one of its lines always fails. -/
theorem foldlM_error_of_mem (f : Int × Int → GoString → Except Abort (Int × Int))
    (lines : List GoString) (bad : GoString) (hmem : bad ∈ lines)
    (hbad : ∀ st, ∃ e, f st bad = .error e) (st : Int × Int) :
    ∃ e, lines.foldlM f st = .error e := by
  induction lines generalizing st with
  | nil => simp at hmem
  | cons l ls ih =>
    rw [List.foldlM_cons]
    cases hl : f st l with
    | error e => exact ⟨e, rfl⟩
    | ok st2 =>
      rcases List.mem_cons.mp hmem with h | h
      · subst h
        obtain ⟨e, he⟩ := hbad st
        rw [he] at hl
        cases hl
      · exact ih h st2

/-- An error of a fold is an error of one of its steps. -/
theorem foldlM_error_step (f : Int × Int → GoString → Except Abort (Int × Int))
    (lines : List GoString) (st : Int × Int) (e : Abort)
    (h : lines.foldlM f st = .error e) : ∃ st2, ∃ l ∈ lines, f st2 l = .error e := by
  induction lines generalizing st with
  | nil => cases h
  | cons l ls ih =>
    rw [List.foldlM_cons] at h
    cases hl : f st l with
    | error e2 =>
      rw [hl] at h
      cases h
      exact ⟨st, l, List.mem_cons_self _ _, hl⟩
    | ok st2 =>
      rw [hl] at h
      obtain ⟨st3, l2, hm, h2⟩ := ih st2 h
      exact ⟨st3, l2, List.mem_cons_of_mem _ hm, h2⟩

theorem keyspaceFold_no_panic (res : GoString) (h : indexSafe res = true) :
    keyspaceFold res ≠ .error .indexOutOfRange := by
  intro hp
  obtain ⟨st, l, hm, hl⟩ := foldlM_error_step _ _ _ _ hp
  have hs : (!isDbEntry l || fieldsIndexable l) = true := (List.all_eq_true.mp h) l hm
  exact keyspaceStep_no_panic st l hs hl

theorem keyspaceFold_error_kinds (res : GoString) (e : Abort) (h : keyspaceFold res = .error e) :
    e = .exit 1 ∨ e = .indexOutOfRange := by
  obtain ⟨st, l, _, hl⟩ := foldlM_error_step _ _ _ _ h
  exact keyspaceStep_error_kinds st l e hl

theorem keyspaceFold_unsafe (res : GoString) (h : indexSafe res = false) :
    keyspaceFold res = .error .indexOutOfRange ∨ keyspaceFold res = .error (.exit 1) := by
  have hex : ∃ l ∈ Split res "\r\n".toList, isDbEntry l = true ∧ fieldsIndexable l = false := by
    unfold indexSafe at h
    have h2 : ¬ (∀ l ∈ Split res "\r\n".toList, (!isDbEntry l || fieldsIndexable l) = true) := by
      intro hall
      rw [List.all_eq_true.mpr hall] at h
      cases h
    push_neg at h2
    obtain ⟨l, hm, hl⟩ := h2
    refine ⟨l, hm, ?_⟩
    cases hd : isDbEntry l <;> cases hf : fieldsIndexable l <;> simp [hd, hf] at hl ⊢
  obtain ⟨l, hm, hd, hf⟩ := hex
  have hbad : ∀ st, ∃ e, keyspaceStep st l = .error e := by
    intro st
    rcases keyspaceStep_unindexable st l hd hf with h1 | ⟨_, _, _, h1⟩
    · exact ⟨_, h1⟩
    · exact ⟨_, h1⟩
  obtain ⟨e, he⟩ := foldlM_error_of_mem keyspaceStep _ l hm hbad (0, 0)
  have he2 : keyspaceFold res = .error e := he
  rcases keyspaceFold_error_kinds res e he2 with h1 | h1
  · right; rw [he2, h1]
  · left; rw [he2, h1]

/-! ## Well-formed keyspace texts -/

theorem digitVal_digitChar (m : Nat) (h : m < 10) :
    Strconv.digitVal (Nat.digitChar m) = some m := by
  interval_cases m <;> decide

theorem digitChar_isDigit (m : Nat) (h : m < 10) : (Nat.digitChar m).isDigit = true := by
  interval_cases m <;> decide

theorem parseDigits_toDigitsCore (fuel n : Nat) (ds : List Char) (h : n < fuel) :
    Strconv.parseDigits (Nat.toDigitsCore 10 fuel n ds) 0 = Strconv.parseDigits ds n := by
  induction fuel generalizing n ds with
  | zero => omega
  | succ f ih =>
    unfold Nat.toDigitsCore
    have hm : n % 10 < 10 := Nat.mod_lt _ (by decide)
    by_cases h0 : n / 10 = 0
    · have hn : n % 10 = n := by omega
      simp only [h0, if_true, Strconv.parseDigits, digitVal_digitChar _ hm]
      rw [hn]; simp
    · simp only [h0, if_false]
      rw [ih (n / 10) _ (by omega)]
      simp only [Strconv.parseDigits, digitVal_digitChar _ hm]
      congr 1
      omega

theorem toDigitsCore_all_digits (fuel n : Nat) (ds : List Char)
    (h : ∀ c ∈ ds, c.isDigit = true) :
    ∀ c ∈ Nat.toDigitsCore 10 fuel n ds, c.isDigit = true := by
  induction fuel generalizing n ds with
  | zero => simpa [Nat.toDigitsCore] using h
  | succ f ih =>
    unfold Nat.toDigitsCore
    have hm : n % 10 < 10 := Nat.mod_lt _ (by decide)
    have hd : ∀ c ∈ Nat.digitChar (n % 10) :: ds, c.isDigit = true := by
      intro c hc
      rcases List.mem_cons.mp hc with h1 | h1
      · rw [h1]; exact digitChar_isDigit _ hm
      · exact h c h1
    by_cases h0 : n / 10 = 0
    · simp only [h0, if_true]; exact hd
    · simp only [h0, if_false]; exact ih _ _ hd

theorem toDigitsCore_ne_nil (fuel n : Nat) (ds : List Char) :
    Nat.toDigitsCore 10 (fuel + 1) n ds ≠ [] := by
  induction fuel generalizing n ds with
  | zero =>
    unfold Nat.toDigitsCore
    by_cases h0 : n / 10 = 0 <;> simp [h0, Nat.toDigitsCore]
  | succ f ih =>
    unfold Nat.toDigitsCore
    by_cases h0 : n / 10 = 0
    · simp [h0]
    · simp only [h0, if_false]; exact ih _ _

theorem toDigits_all_digits (n : Nat) : ∀ c ∈ Nat.toDigits 10 n, c.isDigit = true :=
  toDigitsCore_all_digits _ _ _ (by simp)

theorem toDigits_ne_nil (n : Nat) : Nat.toDigits 10 n ≠ [] := toDigitsCore_ne_nil _ _ _

theorem parseDigits_toDigits (n : Nat) : Strconv.parseDigits (Nat.toDigits 10 n) 0 = some n := by
  unfold Nat.toDigits
  rw [parseDigits_toDigitsCore _ _ _ (Nat.lt_succ_self n)]
  rfl

/-- Reading the decimal text of an integer that fits the `int` gives it back. -/
theorem atoi_showInt (n : Int) (h : intMin ≤ n ∧ n ≤ intMax) :
    Strconv.Atoi (showInt n) = some n := by
  have hne := toDigits_ne_nil n.natAbs
  have hall := toDigits_all_digits n.natAbs
  have hp := parseDigits_toDigits n.natAbs
  by_cases hneg : n < 0
  · have hs : showInt n = '-' :: Nat.toDigits 10 n.natAbs := by simp [showInt, hneg]
    have hv : -(n.natAbs : Int) = n := by omega
    have hbody : Strconv.unsigned ('-' :: Nat.toDigits 10 n.natAbs) =
        Nat.toDigits 10 n.natAbs := rfl
    rw [hs]
    unfold Strconv.Atoi
    simp only [hbody, List.head?_cons, hp, List.isEmpty_eq_true, hne, if_false, if_true, hv,
      h.1, h.2, and_self]
  · have hs : showInt n = Nat.toDigits 10 n.natAbs := by simp [showInt, hneg]
    have hv : (n.natAbs : Int) = n := by omega
    rw [hs]
    cases hd : Nat.toDigits 10 n.natAbs with
    | nil => exact absurd hd hne
    | cons c t =>
      have hc : c.isDigit = true := hall c (by rw [hd]; exact List.mem_cons_self _ _)
      have hm : c ≠ '-' := by intro e; rw [e] at hc; revert hc; decide
      have hq : c ≠ '+' := by intro e; rw [e] at hc; revert hc; decide
      have hbody : Strconv.unsigned (c :: t) = c :: t := by
        unfold Strconv.unsigned
        split
        · rename_i heq; cases heq; exact absurd rfl hm
        · rename_i heq; cases heq; exact absurd rfl hq
        · rfl
      have hp2 : Strconv.parseDigits (c :: t) 0 = some n.natAbs := by rw [← hd]; exact hp
      unfold Strconv.Atoi
      simp only [hbody, hp2, List.isEmpty_cons, List.head?_cons, Option.some.injEq, hm,
        Bool.false_eq_true, if_false, hv, h.1, h.2, and_self, if_true]

theorem not_mem_showInt (c : Char) (hd : c.isDigit = false) (hm : c ≠ '-') (n : Int) :
    c ∉ showInt n := by
  intro hc
  have hall := toDigits_all_digits n.natAbs
  unfold showInt at hc
  split at hc
  · rcases List.mem_cons.mp hc with h1 | h1
    · exact hm h1
    · rw [hall c h1] at hd; cases hd
  · rw [hall c hc] at hd; cases hd

theorem beforeFirst_append (c : Char) (a b : GoString) (h : c ∉ a) :
    beforeFirst c (a ++ c :: b) = a := by
  induction a with
  | nil => simp [beforeFirst]
  | cons x t ih =>
    have hx : x ≠ c := fun e => h (e ▸ List.mem_cons_self _ _)
    have ht : c ∉ t := fun e => h (List.mem_cons_of_mem _ e)
    have := ih ht
    simp only [beforeFirst] at this ⊢
    simp [List.takeWhile_cons, hx, this]

theorem afterFirst_append (c : Char) (a b : GoString) (h : c ∉ a) :
    afterFirst c (a ++ c :: b) = b := by
  induction a with
  | nil => simp [afterFirst]
  | cons x t ih =>
    have hx : x ≠ c := fun e => h (e ▸ List.mem_cons_self _ _)
    have ht : c ∉ t := fun e => h (List.mem_cons_of_mem _ e)
    have := ih ht
    simp only [afterFirst] at this ⊢
    simp [List.dropWhile_cons, hx, this]

/-- A well-formed `db` line adds its two counts to the totals. -/
theorem keyspaceStep_db (st : Int × Int) (suffix rest : GoString) (k e : Int)
    (hs : ':' ∉ suffix) (hk : intMin ≤ k ∧ k ≤ intMax) (he : intMin ≤ e ∧ e ≤ intMax) :
    keyspaceStep st (KsLine.db suffix k e rest).render =
      .ok (wrapInt (st.1 + k), wrapInt (st.2 + e)) := by
  have hkey : ':' ∉ "db".toList ++ suffix := by
    intro hm
    rcases List.mem_append.mp hm with h1 | h1
    · revert h1; decide
    · exact hs h1
  have hline : (KsLine.db suffix k e rest).render =
      ("db".toList ++ suffix) ++ ':' ::
        (("keys=".toList ++ showInt k) ++ ',' ::
          (("expires=".toList ++ showInt e) ++ ',' :: rest)) := by
    simp [KsLine.render]
  have hf1 : ',' ∉ "keys=".toList ++ showInt k := by
    intro hm
    rcases List.mem_append.mp hm with h1 | h1
    · revert h1; decide
    · exact not_mem_showInt ',' (by decide) (by decide) k h1
  have hf2 : ',' ∉ "expires=".toList ++ showInt e := by
    intro hm
    rcases List.mem_append.mp hm with h1 | h1
    · revert h1; decide
    · exact not_mem_showInt ',' (by decide) (by decide) e h1
  have hval : afterFirst ':' (KsLine.db suffix k e rest).render =
      ("keys=".toList ++ showInt k) ++ ',' ::
        (("expires=".toList ++ showInt e) ++ ',' :: rest) := by
    rw [hline, afterFirst_append _ _ _ hkey]
  have hbefore : beforeFirst ':' (KsLine.db suffix k e rest).render = "db".toList ++ suffix := by
    rw [hline, beforeFirst_append _ _ _ hkey]
  have hfirst : firstField (KsLine.db suffix k e rest).render = "keys=".toList ++ showInt k := by
    unfold firstField
    rw [hval, beforeFirst_append _ _ _ hf1]
  have hsecond : secondField (KsLine.db suffix k e rest).render =
      "expires=".toList ++ showInt e := by
    unfold secondField
    rw [hval, afterFirst_append _ _ _ hf1, beforeFirst_append _ _ _ hf2]
  have hkt : keysText (KsLine.db suffix k e rest).render = showInt k := by
    unfold keysText
    rw [hfirst]
    exact afterFirst_append '=' "keys".toList (showInt k) (by decide)
  have het : expiresText (KsLine.db suffix k e rest).render = showInt e := by
    unfold expiresText
    rw [hsecond]
    exact afterFirst_append '=' "expires".toList (showInt e) (by decide)
  have hdb : isDbEntry (KsLine.db suffix k e rest).render = true := by
    unfold isDbEntry
    rw [hbefore]
    have h1 : isEntry (KsLine.db suffix k e rest).render = true := by
      rw [hline]
      simp [isEntry]
    rw [h1]
    simp
  have hcomma : ',' ∈ afterFirst ':' (KsLine.db suffix k e rest).render := by
    rw [hval]; simp
  have heq1 : '=' ∈ firstField (KsLine.db suffix k e rest).render := by
    rw [hfirst]; simp
  have heq2 : '=' ∈ secondField (KsLine.db suffix k e rest).render := by
    rw [hsecond]; simp
  rw [keyspaceStep_eq]
  unfold keyspaceStepCases
  simp only [hdb, hcomma, heq1, heq2, if_true, hkt, het, atoi_showInt k hk, atoi_showInt e he]

/-- A well-formed line that is not a `db` line leaves the totals as they are. -/
theorem keyspaceStep_skip (st : Int × Int) (l : KsLine) (hwf : l.wf = true)
    (hnot : ∀ suffix k e rest, l ≠ KsLine.db suffix k e rest) :
    keyspaceStep st l.render = .ok st := by
  have hnd : isDbEntry l.render = false := by
    cases l with
    | comment body => simp [isDbEntry, isEntry, KsLine.render]
    | plain text =>
      simp only [KsLine.wf, Bool.and_eq_true] at hwf
      have h2 : ':' ∉ text := by simpa using hwf.2.2
      simp [isDbEntry, isEntry, KsLine.render, h2]
    | other key value =>
      simp only [KsLine.wf, Bool.and_eq_true] at hwf
      have h2 : ':' ∉ key := by simpa using hwf.2.1.2
      have h3 : "db".toList.isPrefixOf key = false := by simpa using hwf.2.2
      simp only [isDbEntry, KsLine.render, beforeFirst_append _ _ _ h2, h3, Bool.and_false]
    | db suffix k e rest => exact absurd rfl (hnot suffix k e rest)
  rw [keyspaceStep_eq]
  unfold keyspaceStepCases
  simp [hnd]

theorem cut_crlf_none (line : GoString) (h : noCRLF line = true) :
    cut "\r\n".toList line = none := by
  induction line with
  | nil => rfl
  | cons c t ih =>
    simp only [noCRLF, Bool.and_eq_true, Bool.not_eq_true'] at h
    simp only [cut, h.1, ih h.2]
    rfl

theorem cut_crlf_append (line rest : GoString) (h : noCRLF line = true) :
    cut "\r\n".toList (line ++ "\r\n".toList ++ rest) = some (line, rest) := by
  induction line with
  | nil =>
    have hcr : "\r\n".toList = ['\r', '\n'] := rfl
    rw [hcr]
    simp [cut, List.isPrefixOf]
  | cons c t ih =>
    simp only [noCRLF, Bool.and_eq_true, Bool.not_eq_true'] at h
    have hnp : List.isPrefixOf "\r\n".toList (c :: t ++ "\r\n".toList ++ rest) = false := by
      have h1 := h.1
      have hcr : "\r\n".toList = ['\r', '\n'] := rfl
      rw [hcr] at h1 ⊢
      cases t with
      | nil =>
        by_cases hc : c = '\r'
        · subst hc; simp [List.isPrefixOf]
        · simp [List.isPrefixOf, hc, Ne.symm hc]
      | cons d t2 =>
        simpa [List.isPrefixOf] using h1
    have hstep : cut "\r\n".toList (c :: t ++ "\r\n".toList ++ rest) =
        match cut "\r\n".toList (t ++ "\r\n".toList ++ rest) with
        | some (b, a) => some (c :: b, a)
        | none => none := by
      show cut "\r\n".toList (c :: (t ++ "\r\n".toList ++ rest)) = _
      rw [cut]
      have hnp2 : List.isPrefixOf "\r\n".toList (c :: (t ++ "\r\n".toList ++ rest)) = false := hnp
      simp only [hnp2, Bool.false_eq_true, if_false]
    rw [hstep, ih h.2]

/-- Splitting the CRLF-joined text of lines that hold no CRLF gives the lines back. -/
theorem splitN_join (lines : List GoString) (n : Nat) (hne : lines ≠ [])
    (hlen : lines.length ≤ n) (h : ∀ l ∈ lines, noCRLF l = true) :
    SplitN "\r\n".toList n (List.intercalate "\r\n".toList lines) = lines := by
  induction lines generalizing n with
  | nil => exact absurd rfl hne
  | cons l ls ih =>
    cases ls with
    | nil =>
      have hl := h l (List.mem_cons_self _ _)
      have hj : List.intercalate "\r\n".toList [l] = l := by simp [List.intercalate]
      rw [hj]
      match n, hlen with
      | 1, _ => rfl
      | m + 2, _ => simp only [SplitN, cut_crlf_none l hl]
    | cons l2 ls2 =>
      have hl := h l (List.mem_cons_self _ _)
      have hj : List.intercalate "\r\n".toList (l :: l2 :: ls2) =
          l ++ "\r\n".toList ++ List.intercalate "\r\n".toList (l2 :: ls2) := by
        simp [List.intercalate]
      rw [hj]
      match n, hlen with
      | m + 2, hm =>
        simp only [SplitN, cut_crlf_append l _ hl]
        rw [ih (m + 1) (by simp) (by simpa using hm)
          (fun x hx => h x (List.mem_cons_of_mem _ hx))]

theorem length_le_intercalate (lines : List GoString) :
    lines.length ≤ (List.intercalate "\r\n".toList lines).length + 1 := by
  induction lines with
  | nil => simp
  | cons l ls ih =>
    cases ls with
    | nil => simp
    | cons l2 ls2 =>
      have hj : List.intercalate "\r\n".toList (l :: l2 :: ls2) =
          l ++ "\r\n".toList ++ List.intercalate "\r\n".toList (l2 :: ls2) := by
        simp [List.intercalate]
      rw [hj]
      simp only [List.length_append, List.length_cons] at ih ⊢
      have : ("\r\n".toList).length = 2 := rfl
      omega

theorem split_renderText (ls : List KsLine) (hne : ls ≠ []) (h : ∀ l ∈ ls, l.wf = true) :
    Split (renderText ls) "\r\n".toList = ls.map KsLine.render := by
  unfold Split renderText
  apply splitN_join
  · simpa using hne
  · exact length_le_intercalate _
  · intro x hx
    obtain ⟨l, hl, rfl⟩ := List.mem_map.mp hx
    have := h l hl
    simp only [KsLine.wf, Bool.and_eq_true] at this
    exact this.1

/-- The fold over well-formed lines adds up the counts of the `db` lines. -/
theorem keyspace_foldlM_wf (ls : List KsLine) (h : ∀ l ∈ ls, l.wf = true) (a b : Int) :
    (ls.map KsLine.render).foldlM keyspaceStep (wrapInt a, wrapInt b) =
      .ok (wrapInt (a + (ls.map KsLine.keys).sum), wrapInt (b + (ls.map KsLine.expires).sum)) := by
  induction ls generalizing a b with
  | nil => simp [pure, Except.pure]
  | cons l ls ih =>
    have hl := h l (List.mem_cons_self _ _)
    have hrest : ∀ x ∈ ls, x.wf = true := fun x hx => h x (List.mem_cons_of_mem _ hx)
    rw [List.map_cons, List.foldlM_cons]
    cases l with
    | db suffix k e rest =>
      simp only [KsLine.wf, Bool.and_eq_true, decide_eq_true_eq] at hl
      have hs : ':' ∉ suffix := by simpa using hl.2.1.1
      rw [keyspaceStep_db _ _ _ _ _ hs hl.2.1.2 hl.2.2]
      simp only [wrapInt_wrapInt_add]
      show (ls.map KsLine.render).foldlM keyspaceStep (wrapInt (a + k), wrapInt (b + e)) = _
      rw [ih hrest]
      simp [KsLine.keys, KsLine.expires, add_assoc]
    | comment body =>
      rw [keyspaceStep_skip _ _ hl (by intro _ _ _ _ hc; cases hc)]
      show (ls.map KsLine.render).foldlM keyspaceStep (wrapInt a, wrapInt b) = _
      rw [ih hrest]
      simp [KsLine.keys, KsLine.expires]
    | plain text =>
      rw [keyspaceStep_skip _ _ hl (by intro _ _ _ _ hc; cases hc)]
      show (ls.map KsLine.render).foldlM keyspaceStep (wrapInt a, wrapInt b) = _
      rw [ih hrest]
      simp [KsLine.keys, KsLine.expires]
    | other key value =>
      rw [keyspaceStep_skip _ _ hl (by intro _ _ _ _ hc; cases hc)]
      show (ls.map KsLine.render).foldlM keyspaceStep (wrapInt a, wrapInt b) = _
      rw [ih hrest]
      simp [KsLine.keys, KsLine.expires]

theorem keyspaceFold_renderText (ls : List KsLine) (h : ∀ l ∈ ls, l.wf = true) :
    keyspaceFold (renderText ls) =
      .ok (wrapInt (ls.map KsLine.keys).sum, wrapInt (ls.map KsLine.expires).sum) := by
  by_cases hne : ls = []
  · subst hne
    decide
  · unfold keyspaceFold
    rw [split_renderText ls hne h]
    have := keyspace_foldlM_wf ls h 0 0
    simpa [wrapInt_zero] using this

/-! ## The keyspace claims -/

/-- C6: for every keyspace text made of well-formed lines, the keyspace fold of
`statsKeyInShard` returns the sum of the `keys=` fields and the sum of the
`expires=` fields of its `db` lines, in Go `int` arithmetic (the exact sums
whenever they fit the 64-bit `int`); comments, lines without `:` and lines with
another key add nothing.  The text of two databases with 10 and 5 keys, 2 and 0
expiring, yields 15 and 2. -/
theorem keyspaceFold_sums (ls : List KsLine) (h : ∀ l ∈ ls, l.wf = true) :
    (∃ totalKeys totalExpires : Int,
      keyspaceFold (renderText ls) = .ok (totalKeys, totalExpires) ∧
      totalKeys = wrapInt (ls.map KsLine.keys).sum ∧
      totalExpires = wrapInt (ls.map KsLine.expires).sum ∧
      (intMin ≤ (ls.map KsLine.keys).sum ∧ (ls.map KsLine.keys).sum ≤ intMax →
        totalKeys = (ls.map KsLine.keys).sum) ∧
      (intMin ≤ (ls.map KsLine.expires).sum ∧ (ls.map KsLine.expires).sum ≤ intMax →
        totalExpires = (ls.map KsLine.expires).sum)) ∧
    renderText keyspaceExample =
      "db0:keys=10,expires=2,avg_ttl=0\r\ndb1:keys=5,expires=0,avg_ttl=0\r\n".toList ∧
    keyspaceFold "db0:keys=10,expires=2,avg_ttl=0\r\ndb1:keys=5,expires=0,avg_ttl=0\r\n".toList =
      .ok (15, 2) :=
  ⟨⟨_, _, keyspaceFold_renderText ls h, rfl, rfl, wrapInt_of_fits _, wrapInt_of_fits _⟩,
    by decide, by decide⟩

/-- Witness of C6: the text of the example. -/
theorem keyspaceFold_sums_witness :
    (∀ l ∈ keyspaceExample, l.wf = true) ∧
      ∃ totalKeys totalExpires : Int,
        keyspaceFold (renderText keyspaceExample) = .ok (totalKeys, totalExpires) ∧
        totalKeys = wrapInt (keyspaceExample.map KsLine.keys).sum ∧
        totalExpires = wrapInt (keyspaceExample.map KsLine.expires).sum ∧
        (intMin ≤ (keyspaceExample.map KsLine.keys).sum ∧
          (keyspaceExample.map KsLine.keys).sum ≤ intMax →
            totalKeys = (keyspaceExample.map KsLine.keys).sum) ∧
        (intMin ≤ (keyspaceExample.map KsLine.expires).sum ∧
          (keyspaceExample.map KsLine.expires).sum ≤ intMax →
            totalExpires = (keyspaceExample.map KsLine.expires).sum) :=
  ⟨by decide, (keyspaceFold_sums keyspaceExample (by decide)).1⟩

/-- C8: when a keyspace text contains a `db` line whose `keys=` or `expires=`
field is not a decimal integer, the keyspace fold returns no totals: the process
stops, with `os.Exit(1)` when the fields of all `db` lines can be indexed; so
does `statsKeyInShard` called with `rank ≤ 0`. -/
theorem keyspaceFold_bad_integer (res line : GoString)
    (hmem : line ∈ Strings.Split res "\r\n".toList) (hdb : isDbEntry line = true)
    (hbad : hasBadInteger line = true) :
    (∃ e, keyspaceFold res = .error e) ∧
    (indexSafe res = true → keyspaceFold res = .error (.exit 1)) ∧
    (∀ (sortSort : GoSort.Interface → PairList → PairList) (net : Network) (node : ClusterNode)
        (rank : Int) (fuel : Nat),
      (net node.IP node.Port).Info "keyspace".toList = res → rank ≤ 0 →
        ∃ e, statsKeyInShard sortSort net node rank fuel =
          some { queries := [], result := .error e }) := by
  have hstop : ∃ e, keyspaceFold res = .error e :=
    foldlM_error_of_mem keyspaceStep _ line hmem
      (fun st => keyspaceStep_bad_integer st line hdb hbad) (0, 0)
  refine ⟨hstop, ?_, ?_⟩
  · intro hsafe
    obtain ⟨e, he⟩ := hstop
    rcases keyspaceFold_error_kinds res e he with h1 | h1
    · rw [he, h1]
    · rw [h1] at he
      exact absurd he (keyspaceFold_no_panic res hsafe)
  · intro sortSort net node rank fuel hinfo hrank
    obtain ⟨e, he⟩ := hstop
    refine ⟨e, ?_⟩
    rw [statsKeyInShard_rank_le_zero sortSort net node rank hrank fuel, hinfo, he]

/-- Witness of C8: the text with `keys=abc`. -/
theorem keyspaceFold_bad_integer_witness :
    "db0:keys=abc,expires=2,avg_ttl=0".toList ∈
        Strings.Split "db0:keys=abc,expires=2,avg_ttl=0\r\n".toList "\r\n".toList ∧
      isDbEntry "db0:keys=abc,expires=2,avg_ttl=0".toList = true ∧
      hasBadInteger "db0:keys=abc,expires=2,avg_ttl=0".toList = true ∧
      keyspaceFold "db0:keys=abc,expires=2,avg_ttl=0\r\n".toList = .error (.exit 1) :=
  ⟨by decide, by decide, by decide,
    (keyspaceFold_bad_integer "db0:keys=abc,expires=2,avg_ttl=0\r\n".toList
      "db0:keys=abc,expires=2,avg_ttl=0".toList (by decide) (by decide) (by decide)).2.1
      (by decide)⟩

/-- C10 fails as stated: the line `db0:keys=abc,expires` breaks the precondition
(its second field has no `=`), yet no index is out of range: the process stops
with `os.Exit(1)` at `keys=abc` before `expiresStr[1]` is evaluated. -/
theorem keyspaceFold_exit_before_index :
    indexSafe "db0:keys=abc,expires".toList = false ∧
      keyspaceFold "db0:keys=abc,expires".toList = .error (.exit 1) ∧
      keyspaceFold "db0:keys=abc,expires".toList ≠ .error .indexOutOfRange := by
  decide

/-- C10 as amended: under the precondition no index of the keyspace fold is out
of range; without it the fold never completes: it stops at an index out of range
or, when a field that is no integer is met first, with `os.Exit(1)`.  A `db` line
that breaks the precondition stops the process at an index out of range unless
its value has a comma, its first field has a `=` and the text after it is no
integer, in which case the process exits with status 1.  The texts `db0:keys=10`
and `dbx:` stop at an index out of range. -/
theorem keyspaceFold_index_bounds (res : GoString) (st : Int × Int) (line : GoString) :
    (indexSafe res = true → keyspaceFold res ≠ .error .indexOutOfRange) ∧
    (indexSafe res = false →
      keyspaceFold res = .error .indexOutOfRange ∨ keyspaceFold res = .error (.exit 1)) ∧
    (isDbEntry line = true → fieldsIndexable line = false →
      keyspaceStep st line = .error .indexOutOfRange ∨
        (',' ∈ afterFirst ':' line ∧ '=' ∈ firstField line ∧
          Strconv.Atoi (keysText line) = none ∧ keyspaceStep st line = .error (.exit 1))) ∧
    keyspaceFold "db0:keys=10".toList = .error .indexOutOfRange ∧
    keyspaceFold "dbx:".toList = .error .indexOutOfRange :=
  ⟨keyspaceFold_no_panic res, keyspaceFold_unsafe res, keyspaceStep_unindexable st line,
    by decide, by decide⟩

/-- Witness of the amended C10: a text that meets the precondition, a text that
breaks it, and the line `db0:keys=10`. -/
theorem keyspaceFold_index_bounds_witness :
    indexSafe "db0:keys=10,expires=2,avg_ttl=0\r\n".toList = true ∧
      keyspaceFold "db0:keys=10,expires=2,avg_ttl=0\r\n".toList ≠ .error .indexOutOfRange ∧
      isDbEntry "db0:keys=10".toList = true ∧
      fieldsIndexable "db0:keys=10".toList = false ∧
      keyspaceStep (0, 0) "db0:keys=10".toList = .error .indexOutOfRange :=
  ⟨by decide,
    (keyspaceFold_index_bounds "db0:keys=10,expires=2,avg_ttl=0\r\n".toList (0, 0)
      "db0:keys=10".toList).1 (by decide),
    by decide, by decide, by decide⟩

end Rcc
